import Mathlib

/-!
Verification of the saptune tuning state-reconciliation engine and its CLI
dispatcher (main.go).

The CLI dispatcher (main.go) is embedded directly from the source.  The
reconciliation engine (package app: TuneNote, RevertNote, TuneSolution,
TuneAll, RevertAll, VerifyNote, VerifyAll, GetSortedSolutionEnabledNotes)
is not part of the given sources, only its caller is; those operations are
modelled from the specification text, as indicated on each definition.

System parameter stores, ownership tables and catalogs are modelled as
association lists over `String` keys.  Parameter writes may fail, driven by
a `writable` oracle in the configuration, which models per-parameter
WriteError; a failed write is collected as a `Failure` and processing
continues, per the propagation policy of the spec.
-/

/-- Association list with string keys. -/
abbrev AssocL (α : Type) := List (String × α)

/-- Lookup of the first binding of a key. -/
def lookupA {α : Type} : AssocL α → String → Option α
  | [], _ => none
  | (k', v') :: rest, k => if k' = k then some v' else lookupA rest k

/-- Replace the first binding of a key, or append a new binding. -/
def setA {α : Type} : AssocL α → String → α → AssocL α
  | [], k, v => [(k, v)]
  | (k', v') :: rest, k, v =>
    if k' = k then (k, v) :: rest else (k', v') :: setA rest k v

/-- Remove all bindings of a key. -/
def removeA {α : Type} (m : AssocL α) (k : String) : AssocL α :=
  m.filter (fun e => decide (e.1 ≠ k))

/-- The keys of an association list, in order. -/
def keysOf {α : Type} (m : AssocL α) : List String := m.map Prod.fst

/-- Saved-original record for one parameter: the value captured at first
override, plus the owning set of Note identifiers (a reference-counted
owner set, per the ownership/merge algorithm of the spec). -/
structure ParamRecord where
  savedValue : String
  owners : List String
deriving Repr, DecidableEq

/-- A Note: human-readable name and ordered parameter specifications
(parameter key, expected value). -/
structure NoteDef where
  name : String
  params : AssocL String
deriving Repr, DecidableEq

/-- Persisted tuning state: active standalone notes, active solutions and
the per-parameter saved-original/ownership table. -/
structure AppState where
  activeNotes : List String
  activeSolutions : List String
  params : AssocL ParamRecord
deriving Repr, DecidableEq

/-- The world: tuning state plus the live system parameter values. -/
structure World where
  app : AppState
  sys : AssocL String
deriving Repr, DecidableEq

/-- Static configuration: the Note catalog, the Solution catalog already
resolved for the current platform key, and the per-parameter write oracle
(false models a WriteError on that parameter). -/
structure Config where
  notes : AssocL NoteDef
  sols : AssocL (List String)
  writable : String → Bool

/-- A collected per-parameter write failure. -/
structure Failure where
  noteID : String
  param : String
deriving Repr, DecidableEq

/-- Engine error kinds. -/
inductive TErr where
  | notFound (id : String)
  | notActive (id : String)
  | unsupportedPlatform
deriving Repr, DecidableEq

/-- Read a live system value; absent parameters read as the empty string. -/
def sysRead (sys : AssocL String) (p : String) : String :=
  (lookupA sys p).getD ""

/-- Insert an owner into an owner set (no duplicates). -/
def ownersInsert (id : String) (l : List String) : List String :=
  if id ∈ l then l else l ++ [id]

/-- Remove an owner from an owner set. -/
def ownersErase (id : String) (l : List String) : List String :=
  l.filter (fun x => decide (x ≠ id))

/-- Modelled from the spec: one parameter step of applying a Note
(package app is absent from the sources).  If the parameter is not yet
owned, its current value is captured and saved with the applying Note as
first owner; otherwise the applying Note joins the owner set and the saved
original is kept.  Then the expected value is written; an unwritable
parameter yields a collected Failure instead of a write. -/
def applyParam (cfg : Config) (owner : String) (w : World) (pv : String × String) :
    World × List Failure :=
  let params' :=
    match lookupA w.app.params pv.1 with
    | none => setA w.app.params pv.1 ⟨sysRead w.sys pv.1, [owner]⟩
    | some r => setA w.app.params pv.1 ⟨r.savedValue, ownersInsert owner r.owners⟩
  if cfg.writable pv.1 then
    (⟨⟨w.app.activeNotes, w.app.activeSolutions, params'⟩, setA w.sys pv.1 pv.2⟩, [])
  else
    (⟨⟨w.app.activeNotes, w.app.activeSolutions, params'⟩, w.sys⟩, [⟨owner, pv.1⟩])

/-- Modelled from the spec: apply all parameter specifications of a Note in
order, collecting write failures without aborting. -/
def applyParams (cfg : Config) (owner : String) : AssocL String → World → World × List Failure
  | [], w => (w, [])
  | pv :: rest, w =>
    let s1 := applyParam cfg owner w pv
    let s2 := applyParams cfg owner rest s1.1
    (s2.1, s1.2 ++ s2.2)

/-- The Note identifiers reachable from a list of active Solutions, in
order. -/
def solutionNotes (cfg : Config) (sols : List String) : List String :=
  sols.foldr (fun s acc => (lookupA cfg.sols s).getD [] ++ acc) []

/-- A Note is subsumed when it is already standalone-active or covered by
an active Solution. -/
def subsumed (cfg : Config) (app : AppState) (id : String) : Prop :=
  id ∈ app.activeNotes ∨ id ∈ solutionNotes cfg app.activeSolutions

instance (cfg : Config) (app : AppState) (id : String) : Decidable (subsumed cfg app id) := by
  unfold subsumed; infer_instance

/-- Modelled from the spec: TuneNote.  Resolve the Note from the catalog
(NotFound if absent); for each parameter, save-then-apply per
`applyParam`; add the id to activeNotes if not already subsumed. -/
def tuneNote (cfg : Config) (id : String) (w : World) :
    World × List Failure × Option TErr :=
  match lookupA cfg.notes id with
  | none => (w, [], some (.notFound id))
  | some nd =>
    let s1 := applyParams cfg id nd.params w
    let w1 := s1.1
    if subsumed cfg w1.app id then (w1, s1.2, none)
    else (⟨⟨w1.app.activeNotes ++ [id], w1.app.activeSolutions, w1.app.params⟩, w1.sys⟩,
          s1.2, none)

/-- Modelled from the spec: one parameter step of reverting a Note.  The
owner is removed from the parameter's owner set; only the transition of
the owner set to empty triggers restoration of the saved original value
(and the record is then discarded).  An unwritable parameter yields a
collected Failure instead of the restoring write. -/
def revertParam (cfg : Config) (owner : String) (w : World) (p : String) :
    World × List Failure :=
  match lookupA w.app.params p with
  | none => (w, [])
  | some r =>
    if owner ∈ r.owners then
      let os := ownersErase owner r.owners
      if os = [] then
        if cfg.writable p then
          (⟨⟨w.app.activeNotes, w.app.activeSolutions, removeA w.app.params p⟩,
            setA w.sys p r.savedValue⟩, [])
        else
          (⟨⟨w.app.activeNotes, w.app.activeSolutions, removeA w.app.params p⟩, w.sys⟩,
           [⟨owner, p⟩])
      else
        (⟨⟨w.app.activeNotes, w.app.activeSolutions, setA w.app.params p ⟨r.savedValue, os⟩⟩,
          w.sys⟩, [])
    else (w, [])

/-- Modelled from the spec: revert all parameters of a Note in order. -/
def revertParams (cfg : Config) (owner : String) : List String → World → World × List Failure
  | [], w => (w, [])
  | p :: rest, w =>
    let s1 := revertParam cfg owner w p
    let s2 := revertParams cfg owner rest s1.1
    (s2.1, s1.2 ++ s2.2)

/-- Modelled from the spec: RevertNote.  Fails with NotActive when the
Note is neither standalone-active nor covered by an active Solution;
otherwise each parameter is reverted ownership-aware, and the id is
removed from activeNotes only when removeFromState is set. -/
def revertNote (cfg : Config) (id : String) (removeFromState : Bool) (w : World) :
    World × List Failure × Option TErr :=
  if subsumed cfg w.app id then
    match lookupA cfg.notes id with
    | none => (w, [], some (.notFound id))
    | some nd =>
      let s1 := revertParams cfg id (keysOf nd.params) w
      let w1 := s1.1
      let an := if removeFromState then
          w1.app.activeNotes.filter (fun x => decide (x ≠ id))
        else w1.app.activeNotes
      (⟨⟨an, w1.app.activeSolutions, w1.app.params⟩, w1.sys⟩, s1.2, none)
  else (w, [], some (.notActive id))

/-- Modelled from the spec: apply the constituent Notes of a Solution in
order (parameters only; activeNotes bookkeeping is handled by
tuneSolution).  An unresolvable constituent Note is fatal and surfaced
immediately. -/
def applySolutionNotes (cfg : Config) : List String → World → World × List Failure × Option TErr
  | [], w => (w, [], none)
  | id :: rest, w =>
    match lookupA cfg.notes id with
    | none => (w, [], some (.notFound id))
    | some nd =>
      let s1 := applyParams cfg id nd.params w
      let s2 := applySolutionNotes cfg rest s1.1
      (s2.1, s1.2 ++ s2.2.1, s2.2.2)

/-- Modelled from the spec: TuneSolution.  Resolve the Solution for the
current platform key (UnsupportedPlatform if absent); absorb
standalone-active constituent Notes (remove from activeNotes without
reverting, report them in the removed list); apply every constituent Note;
add the Solution to activeSolutions. -/
def tuneSolution (cfg : Config) (name : String) (w : World) :
    World × List String × List Failure × Option TErr :=
  match lookupA cfg.sols name with
  | none => (w, [], [], some .unsupportedPlatform)
  | some noteIDs =>
    let removed := w.app.activeNotes.filter (fun x => decide (x ∈ noteIDs))
    let an := w.app.activeNotes.filter (fun x => decide (x ∉ noteIDs))
    let s1 := applySolutionNotes cfg noteIDs ⟨⟨an, w.app.activeSolutions, w.app.params⟩, w.sys⟩
    let w1 := s1.1
    let sols := if name ∈ w1.app.activeSolutions then w1.app.activeSolutions
      else w1.app.activeSolutions ++ [name]
    (⟨⟨w1.app.activeNotes, sols, w1.app.params⟩, w1.sys⟩, removed, s1.2.1, s1.2.2)

/-- Every Note referenced by activeNotes or by an active Solution. -/
def allNoteIDs (cfg : Config) (app : AppState) : List String :=
  app.activeNotes ++ solutionNotes cfg app.activeSolutions

/-- Modelled from the spec: bulk application over a list of Note ids,
collecting failures and per-Note errors without aborting. -/
def tuneAllOn (cfg : Config) : List String → World → World × List Failure × List TErr
  | [], w => (w, [], [])
  | id :: rest, w =>
    let s1 := tuneNote cfg id w
    let s2 := tuneAllOn cfg rest s1.1
    (s2.1, s1.2.1 ++ s2.2.1, s1.2.2.toList ++ s2.2.2)

/-- Modelled from the spec: TuneAll applies every Note referenced by
activeNotes and activeSolutions, collecting all failures. -/
def tuneAll (cfg : Config) (w : World) : World × List Failure × List TErr :=
  tuneAllOn cfg (allNoteIDs cfg w.app) w

/-- Modelled from the spec: bulk revert over a list of Note ids,
collecting failures and per-Note errors without aborting. -/
def revertAllOn (cfg : Config) (flag : Bool) : List String → World → World × List Failure × List TErr
  | [], w => (w, [], [])
  | id :: rest, w =>
    let s1 := revertNote cfg id flag w
    let s2 := revertAllOn cfg flag rest s1.1
    (s2.1, s1.2.1 ++ s2.2.1, s1.2.2.toList ++ s2.2.2)

/-- Modelled from the spec: RevertAll reverts every Note referenced by
activeNotes and activeSolutions, collecting all failures. -/
def revertAll (cfg : Config) (flag : Bool) (w : World) : World × List Failure × List TErr :=
  revertAllOn cfg flag (allNoteIDs cfg w.app) w

/-- Per-parameter comparison record (mirrors note.NoteFieldComparison). -/
structure NoteFieldComparison where
  expectedValueJS : String
  actualValueJS : String
  matchExpectation : Bool
deriving Repr, DecidableEq

/-- Modelled from the spec: the Parameter Comparator.  For every parameter
specification of a Note, read the current live value and emit a mapping
from parameter name to NoteFieldComparison.  Read-only. -/
def compareNote (sys : AssocL String) (nd : NoteDef) : AssocL NoteFieldComparison :=
  nd.params.map (fun pv => (pv.1, ⟨pv.2, sysRead sys pv.1, sysRead sys pv.1 == pv.2⟩))

/-- Modelled from the spec: VerifyNote.  Produce the comparator result for
a Note regardless of activation state, plus a fully-conforms flag.  The
unchanged world is returned to express that the operation is read-only. -/
def verifyNote (cfg : Config) (id : String) (w : World) :
    (Bool × AssocL NoteFieldComparison × Option TErr) × World :=
  match lookupA cfg.notes id with
  | none => ((false, [], some (.notFound id)), w)
  | some nd =>
    let mp := compareNote w.sys nd
    ((mp.all (fun pc => pc.2.matchExpectation), mp, none), w)

/-- The comparisons for a Note id (empty when the id is unresolvable). -/
def noteComparisons (cfg : Config) (w : World) (id : String) : AssocL NoteFieldComparison :=
  match lookupA cfg.notes id with
  | none => []
  | some nd => compareNote w.sys nd

/-- Whether a Note id currently fully conforms. -/
def conformsB (cfg : Config) (w : World) (id : String) : Bool :=
  (noteComparisons cfg w id).all (fun pc => pc.2.matchExpectation)

/-- Modelled from the spec: VerifyAll.  Over the deduplicated union of all
active Notes (standalone and solution-derived), return the non-conforming
ids plus all comparisons. -/
def verifyAll (cfg : Config) (w : World) :
    List String × AssocL (AssocL NoteFieldComparison) :=
  let ids := (allNoteIDs cfg w.app).dedup
  (ids.filter (fun id => !(conformsB cfg w id)),
   ids.map (fun id => (id, noteComparisons cfg w id)))

/-- Modelled from the spec: VerifySolution.  Resolve the constituent Notes
and return the non-conforming subset plus per-Note comparisons. -/
def verifySolution (cfg : Config) (name : String) (w : World) :
    Option (List String × AssocL (AssocL NoteFieldComparison)) :=
  match lookupA cfg.sols name with
  | none => none
  | some ids =>
    some (ids.filter (fun id => !(conformsB cfg w id)),
          ids.map (fun id => (id, noteComparisons cfg w id)))

/-! ## CLI dispatcher, embedded from main.go -/

/-- A line-oriented CLI outcome: output lines plus exit code (0 success,
1 the errorExit path of main.go). -/
structure CliResult where
  lines : List String
  exitCode : Nat
deriving Repr, DecidableEq

/-- The display name of a Note id (tuningOptions[noteID].Name() in
main.go). -/
def noteName (cfg : Config) (id : String) : String :=
  match lookupA cfg.notes id with
  | none => ""
  | some nd => nd.name

/-- Embeds PrintNoteFields of main.go: the header line, then for every
non-matching field either the Expected/Actual pair (printComparison) or
the single expected line; a trailing no-change line when nothing
mismatched. -/
def printNoteFields (cfg : Config) (noteID : String)
    (comparisons : AssocL NoteFieldComparison) (printComparison : Bool) : List String :=
  let header := noteID ++ " - " ++ noteName cfg noteID ++ " -"
  let diffLines := comparisons.flatMap (fun nc =>
    if nc.2.matchExpectation then []
    else if printComparison then
      ["\t" ++ nc.1 ++ " Expected: " ++ nc.2.expectedValueJS,
       "\t" ++ nc.1 ++ " Actual  : " ++ nc.2.actualValueJS]
    else
      ["\t" ++ nc.1 ++ " : " ++ nc.2.expectedValueJS])
  let hasDiff := comparisons.any (fun nc => !nc.2.matchExpectation)
  header :: diffLines ++ (if hasDiff then [] else ["\t(no change)"])

/-- Embeds VerifyAllParameters of main.go: on an empty unsatisfied set,
report the well-tuned message and succeed; otherwise print the comparison
of every unsatisfied note and errorExit. -/
def verifyAllParameters (cfg : Config) (w : World) : CliResult :=
  let r := verifyAll cfg w
  if r.1 = [] then
    ⟨["The running system is currently well-tuned according to all of the enabled notes."], 0⟩
  else
    ⟨r.1.flatMap (fun id => printNoteFields cfg id ((lookupA r.2 id).getD []) true)
       ++ ["The parameters listed above have deviated from SAP/SUSE recommendations."], 1⟩

/-- Embeds the `note verify` action of main.go: an empty id verifies all
parameters; otherwise the named note is verified, with every deviating
field printed before the errorExit. -/
def noteVerifyAction (cfg : Config) (noteID : String) (w : World) : CliResult :=
  if noteID = "" then verifyAllParameters cfg w
  else
    match lookupA cfg.notes noteID with
    | none =>
      ⟨["Failed to test the current system against the specified note: " ++ noteID], 1⟩
    | some nd =>
      let comparisons := compareNote w.sys nd
      if comparisons.all (fun pc => pc.2.matchExpectation) then
        ⟨["The system fully conforms to the specified note."], 0⟩
      else
        ⟨printNoteFields cfg noteID comparisons true
           ++ ["The parameters listed above have deviated from the specified note.\n"], 1⟩

/-- Embeds the `solution verify` action of main.go: an empty name verifies
all parameters; otherwise the named solution is verified, with every
deviating field of every unsatisfied note printed before the errorExit. -/
def solutionVerifyAction (cfg : Config) (solName : String) (w : World) : CliResult :=
  if solName = "" then verifyAllParameters cfg w
  else
    match verifySolution cfg solName w with
    | none =>
      ⟨["Failed to test the current system against the specified SAP solution: " ++ solName], 1⟩
    | some r =>
      if r.1 = [] then
        ⟨["The system fully conforms to the tuning guidelines of the specified SAP solution."], 0⟩
      else
        ⟨r.1.flatMap (fun id => printNoteFields cfg id ((lookupA r.2 id).getD []) true)
           ++ ["The parameters listed above have deviated from the specified SAP solution recommendations.\n"], 1⟩

/-- Embeds cliArg of main.go: the i-th command line parameter, or the
empty string when it is not specified (index 0 is the program name). -/
def cliArg (args : List String) (i : Nat) : String :=
  if args.length ≥ i + 1 then args.getD i "" else ""

/-- The outcome of the start of main(): the help path, an errorExit (no
catalog loading, state acquisition or tuning happens on these paths, which
return before those steps in main.go), or dispatch to an action with the
resolved platform selector. -/
inductive MainResult where
  | helpExit (code : Nat)
  | errExit (msg : String)
  | dispatched (selector : String) (cmd : String)
deriving Repr, DecidableEq

/-- Embeds main() of main.go up to the action dispatch: help for a
missing/help first argument, the root-privilege gate, the platform
selector (GOARCH with the _PC suffix exactly when the page-cache
capability is available), and the unsupported-architecture errorExit when
no Solution set is registered under the selector. -/
def mainModel (args : List String) (euid : Nat) (pagecacheAvailable : Bool)
    (goarch : String) (allSolutions : AssocL (AssocL (List String))) : MainResult :=
  let arg1 := cliArg args 1
  if arg1 = "" ∨ arg1 = "help" ∨ arg1 = "--help" then .helpExit 0
  else if euid ≠ 0 then .errExit "Please run saptune with root privilege."
  else
    let selector := if pagecacheAvailable then goarch ++ "_PC" else goarch
    match lookupA allSolutions selector with
    | none => .errExit ("The system architecture (" ++ goarch ++ ") is not supported.")
    | some _ =>
      if arg1 = "daemon" ∨ arg1 = "note" ∨ arg1 = "solution" then .dispatched selector arg1
      else .helpExit 1

/-- Embeds the loop of Go's sort.Search: binary search for the lowest
index in [i, j) satisfying f, with explicit fuel (j - i suffices). -/
def searchLoop (f : Nat → Bool) : Nat → Nat → Nat → Nat
  | 0, i, _ => i
  | fuel + 1, i, j =>
    if i < j then
      if f ((i + j) / 2) then searchLoop f fuel i ((i + j) / 2)
      else searchLoop f fuel ((i + j) / 2 + 1) j
    else i

/-- Embeds Go's sort.Search(n, f). -/
def sortSearch (n : Nat) (f : Nat → Bool) : Nat :=
  searchLoop f n 0 n

/-- Embeds Go's sort.SearchStrings(a, x): the lowest index whose element
is not below x, assuming a sorted slice. -/
def searchStrings (a : List String) (x : String) : Nat :=
  sortSearch a.length (fun i => decide (x ≤ a.getD i ""))

/-- Embeds the marker computation of the `note list` action of main.go:
"*" when the binary-search membership test finds the id among the
solution-enabled notes, otherwise "+" when it finds it among the manually
enabled notes, otherwise no marker. -/
def noteListMarker (solutionNoteIDs tuneForNotes : List String) (noteID : String) : String :=
  if searchStrings solutionNoteIDs noteID < solutionNoteIDs.length ∧
      solutionNoteIDs.getD (searchStrings solutionNoteIDs noteID) "" = noteID then "*"
  else if searchStrings tuneForNotes noteID < tuneForNotes.length ∧
      tuneForNotes.getD (searchStrings tuneForNotes noteID) "" = noteID then "+"
  else ""

/-- Embeds the `note list` loop of main.go as the list of (marker, id)
entries it prints; the internal note "Block" is skipped. -/
def noteListEntries (sortedIDs solutionNoteIDs tuneForNotes : List String) :
    List (String × String) :=
  sortedIDs.filterMap (fun noteID =>
    if noteID = "Block" then none
    else some (noteListMarker solutionNoteIDs tuneForNotes noteID, noteID))

/-- Modelled from the spec: GetSortedSolutionEnabledNotes (package app is
absent from the sources) returns the deduplicated, sorted set of Note
identifiers reachable from all currently active Solutions. -/
def getSortedSolutionEnabledNotes (cfg : Config) (app : AppState) : List String :=
  (solutionNotes cfg app.activeSolutions).dedup.insertionSort (· ≤ ·)

/-! ## Association list lemmas -/

theorem lookupA_setA {α : Type} (m : AssocL α) (k q : String) (v : α) :
    lookupA (setA m k v) q = if k = q then some v else lookupA m q := by
  induction m with
  | nil => simp [setA, lookupA]
  | cons e rest ih =>
    obtain ⟨k', v'⟩ := e
    by_cases h : k' = k
    · subst h
      by_cases hq : k' = q
      · subst hq; simp [setA, lookupA]
      · simp [setA, lookupA, hq]
    · by_cases hq : k' = q
      · subst hq
        have hkq : ¬ k = k' := fun he => h he.symm
        simp [setA, lookupA, h, hkq]
      · simp [setA, lookupA, h, hq, ih]

theorem lookupA_removeA {α : Type} (m : AssocL α) (k q : String) :
    lookupA (removeA m k) q = if k = q then none else lookupA m q := by
  induction m with
  | nil => simp [removeA, lookupA]
  | cons e rest ih =>
    obtain ⟨k', v'⟩ := e
    by_cases h : k' = k
    · subst h
      have hstep : removeA ((k', v') :: rest) k' = removeA rest k' := by
        simp [removeA, List.filter_cons]
      rw [hstep, ih]
      by_cases hq : k' = q <;> simp [lookupA, hq]
    · have hstep : removeA ((k', v') :: rest) k = (k', v') :: removeA rest k := by
        simp [removeA, List.filter_cons, h]
      rw [hstep]
      by_cases hq : k' = q
      · subst hq
        have hkq : ¬ k = k' := fun he => h he.symm
        simp [lookupA, hkq, ih]
      · simp [lookupA, hq, ih]

theorem setA_self {α : Type} (m : AssocL α) (k : String) (v : α)
    (h : lookupA m k = some v) : setA m k v = m := by
  induction m with
  | nil => simp [lookupA] at h
  | cons e rest ih =>
    obtain ⟨k', v'⟩ := e
    by_cases hk : k' = k
    · subst hk
      simp [lookupA] at h
      simp [setA, h]
    · simp [lookupA, hk] at h
      simp [setA, hk, ih h]

theorem ownersInsert_mem (id : String) (l : List String) : id ∈ ownersInsert id l := by
  unfold ownersInsert
  by_cases h : id ∈ l <;> simp [h]

theorem ownersInsert_self (id : String) (l : List String) (h : id ∈ l) :
    ownersInsert id l = l := by
  simp [ownersInsert, h]

theorem ownersErase_not_mem (id : String) (l : List String) : id ∉ ownersErase id l := by
  simp [ownersErase]

/-! ## Pointwise lemmas about applying parameters -/

/-- The record stored for a parameter by an application step. -/
def bumpRecord (o : String) (sys : AssocL String) (p : String) :
    Option ParamRecord → ParamRecord
  | none => ⟨sysRead sys p, [o]⟩
  | some r => ⟨r.savedValue, ownersInsert o r.owners⟩

theorem applyParam_activeNotes (cfg : Config) (o : String) (w : World) (pv : String × String) :
    (applyParam cfg o w pv).1.app.activeNotes = w.app.activeNotes := by
  unfold applyParam
  by_cases h : cfg.writable pv.1 <;> simp [h]

theorem applyParam_activeSolutions (cfg : Config) (o : String) (w : World) (pv : String × String) :
    (applyParam cfg o w pv).1.app.activeSolutions = w.app.activeSolutions := by
  unfold applyParam
  by_cases h : cfg.writable pv.1 <;> simp [h]

theorem applyParam_sys (cfg : Config) (o : String) (w : World) (pv : String × String)
    (q : String) :
    lookupA (applyParam cfg o w pv).1.sys q =
      if cfg.writable pv.1 = true ∧ pv.1 = q then some pv.2 else lookupA w.sys q := by
  unfold applyParam
  by_cases h : cfg.writable pv.1
  · simp [h, lookupA_setA]
  · simp [h]

theorem applyParam_params (cfg : Config) (o : String) (w : World) (pv : String × String)
    (q : String) :
    lookupA (applyParam cfg o w pv).1.app.params q =
      if pv.1 = q then some (bumpRecord o w.sys pv.1 (lookupA w.app.params pv.1))
      else lookupA w.app.params q := by
  unfold applyParam
  cases h : lookupA w.app.params pv.1 <;>
    by_cases hw : cfg.writable pv.1 <;>
    simp [h, hw, lookupA_setA, bumpRecord]

theorem applyParams_activeNotes (cfg : Config) (o : String) (ps : AssocL String) :
    ∀ w : World, (applyParams cfg o ps w).1.app.activeNotes = w.app.activeNotes := by
  induction ps with
  | nil => intro w; rfl
  | cons pv rest ih =>
    intro w
    show (applyParams cfg o rest (applyParam cfg o w pv).1).1.app.activeNotes = _
    rw [ih, applyParam_activeNotes]

theorem applyParams_activeSolutions (cfg : Config) (o : String) (ps : AssocL String) :
    ∀ w : World, (applyParams cfg o ps w).1.app.activeSolutions = w.app.activeSolutions := by
  induction ps with
  | nil => intro w; rfl
  | cons pv rest ih =>
    intro w
    show (applyParams cfg o rest (applyParam cfg o w pv).1).1.app.activeSolutions = _
    rw [ih, applyParam_activeSolutions]

theorem applyParams_sys_not_mem (cfg : Config) (o : String) (ps : AssocL String)
    (q : String) (h : q ∉ keysOf ps) :
    ∀ w : World, lookupA (applyParams cfg o ps w).1.sys q = lookupA w.sys q := by
  induction ps with
  | nil => intro w; rfl
  | cons pv rest ih =>
    intro w
    simp [keysOf] at h
    show lookupA (applyParams cfg o rest (applyParam cfg o w pv).1).1.sys q = _
    rw [ih (by simp [keysOf, h.2]), applyParam_sys]
    have hne : ¬(cfg.writable pv.1 = true ∧ pv.1 = q) := fun hc => h.1 hc.2.symm
    rw [if_neg hne]

theorem applyParams_params_not_mem (cfg : Config) (o : String) (ps : AssocL String)
    (q : String) (h : q ∉ keysOf ps) :
    ∀ w : World, lookupA (applyParams cfg o ps w).1.app.params q = lookupA w.app.params q := by
  induction ps with
  | nil => intro w; rfl
  | cons pv rest ih =>
    intro w
    simp [keysOf] at h
    show lookupA (applyParams cfg o rest (applyParam cfg o w pv).1).1.app.params q = _
    rw [ih (by simp [keysOf, h.2]), applyParam_params]
    have hne : ¬ pv.1 = q := fun hc => h.1 hc.symm
    rw [if_neg hne]

theorem applyParams_savedValue (cfg : Config) (o : String) (ps : AssocL String) :
    ∀ (w : World) (q : String) (r : ParamRecord),
      lookupA w.app.params q = some r →
      ∃ os, lookupA (applyParams cfg o ps w).1.app.params q = some ⟨r.savedValue, os⟩ := by
  induction ps with
  | nil => intro w q r h; exact ⟨r.owners, h⟩
  | cons pv rest ih =>
    intro w q r h
    show ∃ os, lookupA (applyParams cfg o rest (applyParam cfg o w pv).1).1.app.params q = _
    by_cases hq : pv.1 = q
    · subst hq
      have h1 : lookupA (applyParam cfg o w pv).1.app.params pv.1 =
          some ⟨r.savedValue, ownersInsert o r.owners⟩ := by
        rw [applyParam_params]; simp [h, bumpRecord]
      exact ih (applyParam cfg o w pv).1 pv.1 ⟨r.savedValue, ownersInsert o r.owners⟩ h1
    · have h1 : lookupA (applyParam cfg o w pv).1.app.params q = some r := by
        rw [applyParam_params]; simp [hq, h]
      exact ih (applyParam cfg o w pv).1 q r h1

theorem applyParams_noop (cfg : Config) (o : String) (ps : AssocL String) :
    ∀ w : World,
      (∀ pv ∈ ps, ∃ r, lookupA w.app.params pv.1 = some r ∧ o ∈ r.owners ∧
        (cfg.writable pv.1 = true → lookupA w.sys pv.1 = some pv.2)) →
      (applyParams cfg o ps w).1 = w := by
  induction ps with
  | nil => intro w _; rfl
  | cons pv rest ih =>
    intro w h
    obtain ⟨r, hr, ho, hs⟩ := h pv (by simp)
    have hstep : (applyParam cfg o w pv).1 = w := by
      unfold applyParam
      rw [hr]
      have howners : ownersInsert o r.owners = r.owners := ownersInsert_self o r.owners ho
      by_cases hw : cfg.writable pv.1
      · have hsys : setA w.sys pv.1 pv.2 = w.sys := setA_self _ _ _ (hs hw)
        simp [hw, howners, hsys, setA_self _ _ _ hr]
      · simp [hw, howners, setA_self _ _ _ hr]
    show (applyParams cfg o rest (applyParam cfg o w pv).1).1 = w
    rw [hstep]
    exact ih w (fun pv hpv => h pv (by simp [hpv]))

theorem applyParams_establishes (cfg : Config) (o : String) (ps : AssocL String)
    (hnd : (keysOf ps).Nodup) :
    ∀ (w : World) (pv : String × String), pv ∈ ps →
      ∃ r, lookupA (applyParams cfg o ps w).1.app.params pv.1 = some r ∧ o ∈ r.owners ∧
        (cfg.writable pv.1 = true →
          lookupA (applyParams cfg o ps w).1.sys pv.1 = some pv.2) := by
  induction ps with
  | nil => intro w pv h; simp at h
  | cons pv0 rest ih =>
    intro w pv hpv
    have hnd2 : (pv0.1 :: keysOf rest).Nodup := hnd
    have hh := List.nodup_cons.mp hnd2
    rcases List.mem_cons.1 hpv with heq | hmem
    · subst heq
      have hrest : pv.1 ∉ keysOf rest := hh.1
      refine ⟨bumpRecord o w.sys pv.1 (lookupA w.app.params pv.1), ?_, ?_, ?_⟩
      · show lookupA (applyParams cfg o rest (applyParam cfg o w pv).1).1.app.params pv.1 = _
        rw [applyParams_params_not_mem cfg o rest pv.1 hrest, applyParam_params]
        simp
      · cases hrec : lookupA w.app.params pv.1 <;>
          simp [bumpRecord, hrec, ownersInsert_mem]
      · intro hw
        show lookupA (applyParams cfg o rest (applyParam cfg o w pv).1).1.sys pv.1 = _
        rw [applyParams_sys_not_mem cfg o rest pv.1 hrest, applyParam_sys]
        simp [hw]
    · exact ih hh.2 (applyParam cfg o w pv0).1 pv hmem

theorem bumpRecord_congr (o : String) (s1 s2 : AssocL String) (p : String)
    (x : Option ParamRecord) (h : lookupA s1 p = lookupA s2 p) :
    bumpRecord o s1 p x = bumpRecord o s2 p x := by
  cases x <;> simp [bumpRecord, sysRead, h]

theorem applyParams_at_mem (cfg : Config) (o : String) (ps : AssocL String)
    (hnd : (keysOf ps).Nodup) :
    ∀ (w : World) (p : String), p ∈ keysOf ps →
      lookupA (applyParams cfg o ps w).1.app.params p =
        some (bumpRecord o w.sys p (lookupA w.app.params p)) ∧
      (cfg.writable p = true →
        lookupA (applyParams cfg o ps w).1.sys p = lookupA ps p) := by
  induction ps with
  | nil => intro w p h; simp [keysOf] at h
  | cons pv0 rest ih =>
    intro w p hp
    have hnd2 : (pv0.1 :: keysOf rest).Nodup := hnd
    have hh := List.nodup_cons.mp hnd2
    have hp2 : p = pv0.1 ∨ p ∈ keysOf rest := List.mem_cons.mp hp
    rcases hp2 with heq | hmem
    · subst heq
      constructor
      · show lookupA (applyParams cfg o rest (applyParam cfg o w pv0).1).1.app.params pv0.1 = _
        rw [applyParams_params_not_mem cfg o rest pv0.1 hh.1, applyParam_params]
        simp
      · intro hw
        show lookupA (applyParams cfg o rest (applyParam cfg o w pv0).1).1.sys pv0.1 = _
        rw [applyParams_sys_not_mem cfg o rest pv0.1 hh.1, applyParam_sys]
        simp [hw, lookupA]
    · have hne : pv0.1 ≠ p := fun hc => hh.1 (hc ▸ hmem)
      have step := ih hh.2 (applyParam cfg o w pv0).1 p hmem
      have hsys : lookupA (applyParam cfg o w pv0).1.sys p = lookupA w.sys p := by
        rw [applyParam_sys, if_neg (fun hc => hne hc.2)]
      have hpar : lookupA (applyParam cfg o w pv0).1.app.params p = lookupA w.app.params p := by
        rw [applyParam_params, if_neg hne]
      constructor
      · show lookupA (applyParams cfg o rest (applyParam cfg o w pv0).1).1.app.params p = _
        rw [step.1, hpar, bumpRecord_congr o _ w.sys p _ hsys]
      · intro hw
        show lookupA (applyParams cfg o rest (applyParam cfg o w pv0).1).1.sys p = _
        rw [step.2 hw]
        simp [lookupA, hne]

/-! ## Pointwise lemmas about reverting parameters -/

theorem revertParam_activeNotes (cfg : Config) (o : String) (w : World) (p : String) :
    (revertParam cfg o w p).1.app.activeNotes = w.app.activeNotes := by
  unfold revertParam
  cases h : lookupA w.app.params p
  · rfl
  · rename_i r
    by_cases ho : o ∈ r.owners
    · by_cases he : ownersErase o r.owners = [] <;>
        by_cases hw : cfg.writable p <;> simp [ho, he, hw]
    · simp [ho]

theorem revertParam_activeSolutions (cfg : Config) (o : String) (w : World) (p : String) :
    (revertParam cfg o w p).1.app.activeSolutions = w.app.activeSolutions := by
  unfold revertParam
  cases h : lookupA w.app.params p
  · rfl
  · rename_i r
    by_cases ho : o ∈ r.owners
    · by_cases he : ownersErase o r.owners = [] <;>
        by_cases hw : cfg.writable p <;> simp [ho, he, hw]
    · simp [ho]

theorem revertParam_ne (cfg : Config) (o : String) (w : World) (p q : String)
    (h : p ≠ q) :
    lookupA (revertParam cfg o w p).1.sys q = lookupA w.sys q ∧
    lookupA (revertParam cfg o w p).1.app.params q = lookupA w.app.params q := by
  unfold revertParam
  cases hrec : lookupA w.app.params p
  · exact ⟨rfl, rfl⟩
  · rename_i r
    by_cases ho : o ∈ r.owners
    · by_cases he : ownersErase o r.owners = []
      · by_cases hw : cfg.writable p <;>
          simp [ho, he, hw, lookupA_setA, lookupA_removeA, h]
      · simp [ho, he, lookupA_setA, h]
    · simp [ho]

theorem revertParams_activeNotes (cfg : Config) (o : String) (ks : List String) :
    ∀ w : World, (revertParams cfg o ks w).1.app.activeNotes = w.app.activeNotes := by
  induction ks with
  | nil => intro w; rfl
  | cons k rest ih =>
    intro w
    show (revertParams cfg o rest (revertParam cfg o w k).1).1.app.activeNotes = _
    rw [ih, revertParam_activeNotes]

theorem revertParams_activeSolutions (cfg : Config) (o : String) (ks : List String) :
    ∀ w : World, (revertParams cfg o ks w).1.app.activeSolutions = w.app.activeSolutions := by
  induction ks with
  | nil => intro w; rfl
  | cons k rest ih =>
    intro w
    show (revertParams cfg o rest (revertParam cfg o w k).1).1.app.activeSolutions = _
    rw [ih, revertParam_activeSolutions]

theorem revertParams_not_mem (cfg : Config) (o : String) (ks : List String)
    (q : String) (h : q ∉ ks) :
    ∀ w : World, lookupA (revertParams cfg o ks w).1.sys q = lookupA w.sys q ∧
      lookupA (revertParams cfg o ks w).1.app.params q = lookupA w.app.params q := by
  induction ks with
  | nil => intro w; exact ⟨rfl, rfl⟩
  | cons k rest ih =>
    intro w
    simp at h
    have hne : k ≠ q := fun hc => h.1 hc.symm
    have step := revertParam_ne cfg o w k q hne
    have rest1 := ih h.2 (revertParam cfg o w k).1
    refine ⟨?_, ?_⟩
    · show lookupA (revertParams cfg o rest (revertParam cfg o w k).1).1.sys q = _
      rw [rest1.1, step.1]
    · show lookupA (revertParams cfg o rest (revertParam cfg o w k).1).1.app.params q = _
      rw [rest1.2, step.2]

theorem revertParams_last_owner (cfg : Config) (o : String) (ks : List String)
    (hnd : ks.Nodup) :
    ∀ (w : World) (p : String) (r : ParamRecord), p ∈ ks →
      lookupA w.app.params p = some r → o ∈ r.owners → ownersErase o r.owners = [] →
      cfg.writable p = true →
      lookupA (revertParams cfg o ks w).1.app.params p = none ∧
      lookupA (revertParams cfg o ks w).1.sys p = some r.savedValue := by
  induction ks with
  | nil => intro w p r h; simp at h
  | cons k rest ih =>
    intro w p r hp hrec ho he hw
    have hh := List.nodup_cons.mp hnd
    rcases List.mem_cons.mp hp with heq | hmem
    · subst heq
      have hstep : (revertParam cfg o w p).1 =
          ⟨⟨w.app.activeNotes, w.app.activeSolutions, removeA w.app.params p⟩,
            setA w.sys p r.savedValue⟩ := by
        unfold revertParam
        rw [hrec]
        simp [ho, he, hw]
      have rest1 := revertParams_not_mem cfg o rest p hh.1 (revertParam cfg o w p).1
      refine ⟨?_, ?_⟩
      · show lookupA (revertParams cfg o rest (revertParam cfg o w p).1).1.app.params p = _
        rw [rest1.2, hstep, lookupA_removeA]
        simp
      · show lookupA (revertParams cfg o rest (revertParam cfg o w p).1).1.sys p = _
        rw [rest1.1, hstep, lookupA_setA]
        simp
    · have hne : k ≠ p := fun hc => hh.1 (hc ▸ hmem)
      have step := revertParam_ne cfg o w k p hne
      exact ih hh.2 (revertParam cfg o w k).1 p r hmem (by rw [step.2, hrec]) ho he hw

theorem revertParams_shared (cfg : Config) (o : String) (ks : List String)
    (hnd : ks.Nodup) :
    ∀ (w : World) (p : String) (r : ParamRecord), p ∈ ks →
      lookupA w.app.params p = some r → o ∈ r.owners → ownersErase o r.owners ≠ [] →
      lookupA (revertParams cfg o ks w).1.app.params p =
        some ⟨r.savedValue, ownersErase o r.owners⟩ ∧
      lookupA (revertParams cfg o ks w).1.sys p = lookupA w.sys p := by
  induction ks with
  | nil => intro w p r h; simp at h
  | cons k rest ih =>
    intro w p r hp hrec ho he
    have hh := List.nodup_cons.mp hnd
    rcases List.mem_cons.mp hp with heq | hmem
    · subst heq
      have hstep : (revertParam cfg o w p).1 =
          ⟨⟨w.app.activeNotes, w.app.activeSolutions,
             setA w.app.params p ⟨r.savedValue, ownersErase o r.owners⟩⟩, w.sys⟩ := by
        unfold revertParam
        rw [hrec]
        simp [ho, he]
      have rest1 := revertParams_not_mem cfg o rest p hh.1 (revertParam cfg o w p).1
      refine ⟨?_, ?_⟩
      · show lookupA (revertParams cfg o rest (revertParam cfg o w p).1).1.app.params p = _
        rw [rest1.2, hstep, lookupA_setA]
        simp
      · show lookupA (revertParams cfg o rest (revertParam cfg o w p).1).1.sys p = _
        rw [rest1.1, hstep]
    · have hne : k ≠ p := fun hc => hh.1 (hc ▸ hmem)
      have step := revertParam_ne cfg o w k p hne
      have rest1 := ih hh.2 (revertParam cfg o w k).1 p r hmem (by rw [step.2, hrec]) ho he
      refine ⟨rest1.1, ?_⟩
      show lookupA (revertParams cfg o rest (revertParam cfg o w k).1).1.sys p = _
      rw [rest1.2, step.1]

theorem revertParams_guard (cfg : Config) (o : String) (ks : List String) :
    ∀ (w : World) (p : String),
      (∀ r, lookupA w.app.params p = some r → o ∈ r.owners →
        ownersErase o r.owners ≠ []) →
      lookupA (revertParams cfg o ks w).1.sys p = lookupA w.sys p := by
  induction ks with
  | nil => intro w p _; rfl
  | cons k rest ih =>
    intro w p hguard
    show lookupA (revertParams cfg o rest (revertParam cfg o w k).1).1.sys p = _
    by_cases hk : k = p
    · subst hk
      cases hrec : lookupA w.app.params k
      · have hstep : (revertParam cfg o w k).1 = w := by
          unfold revertParam; rw [hrec]
        rw [hstep]
        exact ih w k hguard
      · rename_i r
        by_cases ho : o ∈ r.owners
        · have he := hguard r hrec ho
          have hstep : (revertParam cfg o w k).1 =
              ⟨⟨w.app.activeNotes, w.app.activeSolutions,
                 setA w.app.params k ⟨r.savedValue, ownersErase o r.owners⟩⟩, w.sys⟩ := by
            unfold revertParam
            rw [hrec]
            simp [ho, he]
          rw [hstep]
          refine ih _ k (fun r' hr' ho' => ?_)
          rw [lookupA_setA] at hr'
          simp at hr'
          rw [← hr'] at ho'
          exact absurd ho' (ownersErase_not_mem o r.owners)
        · have hstep : (revertParam cfg o w k).1 = w := by
            unfold revertParam; rw [hrec]; simp [ho]
          rw [hstep]
          exact ih w k hguard
    · have step := revertParam_ne cfg o w k p hk
      have hguard2 : ∀ r, lookupA (revertParam cfg o w k).1.app.params p = some r →
          o ∈ r.owners → ownersErase o r.owners ≠ [] := by
        intro r hr ho
        rw [step.2] at hr
        exact hguard r hr ho
      rw [ih (revertParam cfg o w k).1 p hguard2, step.1]

/-! ## Note-level lemmas -/

theorem tuneNote_params (cfg : Config) (id : String) (w : World) (nd : NoteDef)
    (h : lookupA cfg.notes id = some nd) :
    (tuneNote cfg id w).1.app.params = (applyParams cfg id nd.params w).1.app.params := by
  unfold tuneNote
  rw [h]
  by_cases hs : subsumed cfg (applyParams cfg id nd.params w).1.app id <;> simp [hs]

theorem tuneNote_sys (cfg : Config) (id : String) (w : World) (nd : NoteDef)
    (h : lookupA cfg.notes id = some nd) :
    (tuneNote cfg id w).1.sys = (applyParams cfg id nd.params w).1.sys := by
  unfold tuneNote
  rw [h]
  by_cases hs : subsumed cfg (applyParams cfg id nd.params w).1.app id <;> simp [hs]

theorem tuneNote_activeSolutions (cfg : Config) (id : String) (w : World) :
    (tuneNote cfg id w).1.app.activeSolutions = w.app.activeSolutions := by
  unfold tuneNote
  cases h : lookupA cfg.notes id
  · rfl
  · rename_i nd
    by_cases hs : subsumed cfg (applyParams cfg id nd.params w).1.app id <;>
      simp [hs, applyParams_activeSolutions]

theorem tuneNote_subsumed (cfg : Config) (id : String) (w : World) (nd : NoteDef)
    (h : lookupA cfg.notes id = some nd) :
    subsumed cfg (tuneNote cfg id w).1.app id := by
  unfold tuneNote
  rw [h]
  by_cases hs : subsumed cfg (applyParams cfg id nd.params w).1.app id
  · simp [hs]
  · simp [hs]
    exact Or.inl (by simp)

theorem tuneNote_activeNotes_mono (cfg : Config) (id : String) (w : World)
    (a : String) (ha : a ∈ w.app.activeNotes) :
    a ∈ (tuneNote cfg id w).1.app.activeNotes := by
  unfold tuneNote
  cases h : lookupA cfg.notes id
  · exact ha
  · rename_i nd
    by_cases hs : subsumed cfg (applyParams cfg id nd.params w).1.app id <;>
      simp [hs, applyParams_activeNotes, ha]

theorem tuneNote_subsumed_mono (cfg : Config) (id : String) (w : World)
    (a : String) (ha : subsumed cfg w.app a) :
    subsumed cfg (tuneNote cfg id w).1.app a := by
  rcases ha with h1 | h2
  · exact Or.inl (tuneNote_activeNotes_mono cfg id w a h1)
  · right
    rw [tuneNote_activeSolutions]
    exact h2

theorem revertNote_activeSolutions (cfg : Config) (id : String) (rm : Bool) (w : World) :
    (revertNote cfg id rm w).1.app.activeSolutions = w.app.activeSolutions := by
  unfold revertNote
  by_cases hs : subsumed cfg w.app id
  · cases h : lookupA cfg.notes id
    · simp [hs]
    · rename_i nd
      simp [hs, revertParams_activeSolutions]
  · simp [hs]

theorem revertNote_params (cfg : Config) (id : String) (rm : Bool) (w : World) (nd : NoteDef)
    (hs : subsumed cfg w.app id) (h : lookupA cfg.notes id = some nd) :
    (revertNote cfg id rm w).1.app.params =
      (revertParams cfg id (keysOf nd.params) w).1.app.params := by
  unfold revertNote
  simp [hs, h]

theorem revertNote_sys (cfg : Config) (id : String) (rm : Bool) (w : World) (nd : NoteDef)
    (hs : subsumed cfg w.app id) (h : lookupA cfg.notes id = some nd) :
    (revertNote cfg id rm w).1.sys = (revertParams cfg id (keysOf nd.params) w).1.sys := by
  unfold revertNote
  simp [hs, h]

theorem revertNote_sys_unchanged_not_subsumed (cfg : Config) (id : String) (rm : Bool)
    (w : World) (hs : ¬ subsumed cfg w.app id) :
    (revertNote cfg id rm w).1 = w := by
  unfold revertNote
  simp [hs]

theorem revertNote_subsumed_mono (cfg : Config) (id : String) (rm : Bool) (w : World)
    (a : String) (hne : a ≠ id) (ha : subsumed cfg w.app a) :
    subsumed cfg (revertNote cfg id rm w).1.app a := by
  unfold revertNote
  by_cases hs : subsumed cfg w.app id
  · cases h : lookupA cfg.notes id
    · simpa [hs] using ha
    · rename_i nd
      rcases ha with h1 | h2
      · left
        cases rm <;>
          simp [hs, revertParams_activeNotes, h1, hne, List.mem_filter]
      · right
        simp [hs, revertParams_activeSolutions, h2]
  · simpa [hs] using ha

theorem revertNote_true_not_active (cfg : Config) (id : String) (w : World) (nd : NoteDef)
    (h : lookupA cfg.notes id = some nd) :
    id ∉ (revertNote cfg id true w).1.app.activeNotes := by
  unfold revertNote
  by_cases hs : subsumed cfg w.app id
  · simp [hs, h, List.mem_filter]
  · intro hc
    simp [hs] at hc
    exact hs (Or.inl hc)

theorem tuneNote_none (cfg : Config) (id : String) (w : World)
    (h : lookupA cfg.notes id = none) : (tuneNote cfg id w).1 = w := by
  simp [tuneNote, h]

theorem tuneNote_state_subsumed (cfg : Config) (id : String) (w : World) (nd : NoteDef)
    (h : lookupA cfg.notes id = some nd)
    (hsub : subsumed cfg (applyParams cfg id nd.params w).1.app id) :
    (tuneNote cfg id w).1 = (applyParams cfg id nd.params w).1 := by
  unfold tuneNote
  rw [h]
  simp [hsub]

/-- C3: applying the same Note twice in succession yields a Tuning State
identical to applying it once, with no additional saved-original records;
moreover the saved original value captured at first override is never
overwritten by any later Note application while the record remains. -/
theorem claim3_tuneNote_idempotent (cfg : Config) (id : String) (w : World)
    (h : (keysOf ((lookupA cfg.notes id).getD ⟨"", []⟩).params).Nodup) :
    (tuneNote cfg id (tuneNote cfg id w).1).1 = (tuneNote cfg id w).1 ∧
    (∀ (id2 : String) (w2 : World) (p : String) (r : ParamRecord),
      lookupA w2.app.params p = some r →
      ∃ os, lookupA (tuneNote cfg id2 w2).1.app.params p = some ⟨r.savedValue, os⟩) := by
  constructor
  · cases hlk : lookupA cfg.notes id with
    | none =>
      have e := tuneNote_none cfg id w hlk
      rw [e]
      exact e
    | some nd =>
      have hnd : (keysOf nd.params).Nodup := by rw [hlk] at h; exact h
      have hp := tuneNote_params cfg id w nd hlk
      have hsy := tuneNote_sys cfg id w nd hlk
      have inv : ∀ pv ∈ nd.params, ∃ r,
          lookupA (tuneNote cfg id w).1.app.params pv.1 = some r ∧ id ∈ r.owners ∧
          (cfg.writable pv.1 = true → lookupA (tuneNote cfg id w).1.sys pv.1 = some pv.2) := by
        intro pv hpv
        obtain ⟨r, hr, ho, hs⟩ := applyParams_establishes cfg id nd.params hnd w pv hpv
        exact ⟨r, by rw [hp]; exact hr, ho, fun hw => by rw [hsy]; exact hs hw⟩
      have noop := applyParams_noop cfg id nd.params (tuneNote cfg id w).1 inv
      have hsub : subsumed cfg (applyParams cfg id nd.params (tuneNote cfg id w).1).1.app id := by
        rw [noop]
        exact tuneNote_subsumed cfg id w nd hlk
      rw [tuneNote_state_subsumed cfg id (tuneNote cfg id w).1 nd hlk hsub, noop]
  · intro id2 w2 p r hr
    cases hlk : lookupA cfg.notes id2 with
    | none =>
      rw [tuneNote_none cfg id2 w2 hlk]
      exact ⟨r.owners, hr⟩
    | some nd =>
      rw [tuneNote_params cfg id2 w2 nd hlk]
      exact applyParams_savedValue cfg id2 nd.params w2 p r hr

/-- A one-note catalog with an always-writable system, for witnesses. -/
def cfgW1 : Config :=
  ⟨[("1001", ⟨"CPU governor", [("governor", "performance")]⟩)], [], fun _ => true⟩

/-- A world with an untuned system, for witnesses. -/
def worldW1 : World := ⟨⟨[], [], []⟩, [("governor", "powersave")]⟩

/-- Witness for C3: idempotence at a concrete catalog and world. -/
theorem claim3_witness :
    (tuneNote cfgW1 "1001" (tuneNote cfgW1 "1001" worldW1).1).1 =
      (tuneNote cfgW1 "1001" worldW1).1 :=
  (claim3_tuneNote_idempotent cfgW1 "1001" worldW1 (by decide)).1

theorem lookupA_of_mem_keys {α : Type} (m : AssocL α) (p : String)
    (h : p ∈ keysOf m) : ∃ v, lookupA m p = some v := by
  induction m with
  | nil => simp [keysOf] at h
  | cons e rest ih =>
    by_cases hk : e.1 = p
    · exact ⟨e.2, by simp [lookupA, hk]⟩
    · have h2 : p ∈ keysOf rest := by
        have : p = e.1 ∨ p ∈ keysOf rest := List.mem_cons.mp h
        rcases this with hc | hm
        · exact absurd hc.symm hk
        · exact hm
      obtain ⟨v, hv⟩ := ih h2
      exact ⟨v, by simp [lookupA, hk, hv]⟩

theorem ownersErase_singleton (o : String) : ownersErase o [o] = [] := by
  simp [ownersErase]

/-- C2: for a Note resolvable in the catalog whose parameters have no
other active owner, TuneNote followed by RevertNote with removal restores
every owned parameter to its pre-apply value, discards its saved-value
record, and removes the id from activeNotes. -/
theorem claim2_roundtrip (cfg : Config) (id : String) (w : World) (nd : NoteDef)
    (hnd : lookupA cfg.notes id = some nd)
    (hnodup : (keysOf nd.params).Nodup)
    (hfree : ∀ p ∈ keysOf nd.params, lookupA w.app.params p = none)
    (hwr : ∀ p ∈ keysOf nd.params, cfg.writable p = true) :
    (∀ p ∈ keysOf nd.params,
      sysRead (revertNote cfg id true (tuneNote cfg id w).1).1.sys p = sysRead w.sys p ∧
      lookupA (revertNote cfg id true (tuneNote cfg id w).1).1.app.params p = none) ∧
    id ∉ (revertNote cfg id true (tuneNote cfg id w).1).1.app.activeNotes := by
  have hsub1 : subsumed cfg (tuneNote cfg id w).1.app id := tuneNote_subsumed cfg id w nd hnd
  constructor
  · intro p hp
    have hrec1 : lookupA (tuneNote cfg id w).1.app.params p =
        some ⟨sysRead w.sys p, [id]⟩ := by
      rw [tuneNote_params cfg id w nd hnd]
      have := (applyParams_at_mem cfg id nd.params hnodup w p hp).1
      rw [this, hfree p hp]
      rfl
    have hrev := revertParams_last_owner cfg id (keysOf nd.params) hnodup
      (tuneNote cfg id w).1 p ⟨sysRead w.sys p, [id]⟩ hp hrec1 (by simp)
      (ownersErase_singleton id) (hwr p hp)
    constructor
    · rw [revertNote_sys cfg id true (tuneNote cfg id w).1 nd hsub1 hnd]
      rw [sysRead, hrev.2]
      rfl
    · rw [revertNote_params cfg id true (tuneNote cfg id w).1 nd hsub1 hnd]
      exact hrev.1
  · exact revertNote_true_not_active cfg id (tuneNote cfg id w).1 nd hnd

/-- Witness for C2: the round-trip at a concrete catalog and world. -/
theorem claim2_witness :
    (∀ p ∈ keysOf (NoteDef.params ⟨"CPU governor", [("governor", "performance")]⟩),
      sysRead (revertNote cfgW1 "1001" true (tuneNote cfgW1 "1001" worldW1).1).1.sys p =
        sysRead worldW1.sys p ∧
      lookupA (revertNote cfgW1 "1001" true
        (tuneNote cfgW1 "1001" worldW1).1).1.app.params p = none) ∧
    "1001" ∉ (revertNote cfgW1 "1001" true
      (tuneNote cfgW1 "1001" worldW1).1).1.app.activeNotes :=
  claim2_roundtrip cfgW1 "1001" worldW1 ⟨"CPU governor", [("governor", "performance")]⟩
    (by decide) (by decide) (by decide) (by decide)

/-- C1: for Notes A and B both overriding parameter P, after TuneNote(A),
TuneNote(B), RevertNote(A, _), parameter P still holds B's value with B
the sole remaining owner; only after RevertNote(B, _) is P restored to its
original pre-tuning value; and in general a revert never restores a
parameter whose owner set does not transition to empty. -/
theorem claim1_shared_ownership (cfg : Config) (A B P : String) (w : World)
    (na nb : NoteDef) (rm1 rm2 : Bool)
    (hA : lookupA cfg.notes A = some na) (hB : lookupA cfg.notes B = some nb)
    (hAB : A ≠ B)
    (hndA : (keysOf na.params).Nodup) (hndB : (keysOf nb.params).Nodup)
    (hPA : P ∈ keysOf na.params) (hPB : P ∈ keysOf nb.params)
    (hP0 : lookupA w.app.params P = none)
    (hwP : cfg.writable P = true) :
    (∃ vB, lookupA nb.params P = some vB ∧
      lookupA (revertNote cfg A rm1
        (tuneNote cfg B (tuneNote cfg A w).1).1).1.sys P = some vB) ∧
    (lookupA (revertNote cfg A rm1
        (tuneNote cfg B (tuneNote cfg A w).1).1).1.app.params P =
      some ⟨sysRead w.sys P, [B]⟩) ∧
    sysRead (revertNote cfg B rm2 (revertNote cfg A rm1
        (tuneNote cfg B (tuneNote cfg A w).1).1).1).1.sys P = sysRead w.sys P ∧
    lookupA (revertNote cfg B rm2 (revertNote cfg A rm1
        (tuneNote cfg B (tuneNote cfg A w).1).1).1).1.app.params P = none ∧
    (∀ (w3 : World) (id : String) (rm : Bool) (p : String) (r : ParamRecord),
      lookupA w3.app.params p = some r → ownersErase id r.owners ≠ [] →
      lookupA (revertNote cfg id rm w3).1.sys p = lookupA w3.sys p) := by
  have hBA : B ≠ A := Ne.symm hAB
  -- the state after TuneNote(A)
  have hrec1 : lookupA (tuneNote cfg A w).1.app.params P =
      some ⟨sysRead w.sys P, [A]⟩ := by
    rw [tuneNote_params cfg A w na hA]
    rw [(applyParams_at_mem cfg A na.params hndA w P hPA).1, hP0]
    rfl
  -- the state after TuneNote(B)
  have hIns : ownersInsert B [A] = [A, B] := by
    simp [ownersInsert, hBA]
  have hrec2 : lookupA (tuneNote cfg B (tuneNote cfg A w).1).1.app.params P =
      some ⟨sysRead w.sys P, [A, B]⟩ := by
    rw [tuneNote_params cfg B (tuneNote cfg A w).1 nb hB]
    rw [(applyParams_at_mem cfg B nb.params hndB (tuneNote cfg A w).1 P hPB).1, hrec1]
    simp [bumpRecord, hIns]
  obtain ⟨vB, hvB⟩ := lookupA_of_mem_keys nb.params P hPB
  have hsys2 : lookupA (tuneNote cfg B (tuneNote cfg A w).1).1.sys P = some vB := by
    rw [tuneNote_sys cfg B (tuneNote cfg A w).1 nb hB]
    rw [(applyParams_at_mem cfg B nb.params hndB (tuneNote cfg A w).1 P hPB).2 hwP]
    exact hvB
  -- A stays subsumed after TuneNote(B), B is subsumed after TuneNote(B)
  have hsubA2 : subsumed cfg (tuneNote cfg B (tuneNote cfg A w).1).1.app A :=
    tuneNote_subsumed_mono cfg B (tuneNote cfg A w).1 A
      (tuneNote_subsumed cfg A w na hA)
  have hsubB2 : subsumed cfg (tuneNote cfg B (tuneNote cfg A w).1).1.app B :=
    tuneNote_subsumed cfg B (tuneNote cfg A w).1 nb hB
  -- RevertNote(A): P keeps B's value, owner set shrinks to [B]
  have hErA : ownersErase A [A, B] = [B] := by
    simp [ownersErase, hBA]
  have hshared := revertParams_shared cfg A (keysOf na.params) hndA
    (tuneNote cfg B (tuneNote cfg A w).1).1 P ⟨sysRead w.sys P, [A, B]⟩ hPA hrec2
    (by simp) (by rw [show ownersErase A (ParamRecord.owners ⟨sysRead w.sys P, [A, B]⟩) =
      [B] from hErA]; simp)
  have hrec3 : lookupA (revertNote cfg A rm1
      (tuneNote cfg B (tuneNote cfg A w).1).1).1.app.params P =
      some ⟨sysRead w.sys P, [B]⟩ := by
    rw [revertNote_params cfg A rm1 (tuneNote cfg B (tuneNote cfg A w).1).1 na hsubA2 hA]
    rw [hshared.1]
    simp [hErA]
  have hsys3 : lookupA (revertNote cfg A rm1
      (tuneNote cfg B (tuneNote cfg A w).1).1).1.sys P = some vB := by
    rw [revertNote_sys cfg A rm1 (tuneNote cfg B (tuneNote cfg A w).1).1 na hsubA2 hA]
    rw [hshared.2]
    exact hsys2
  -- B stays subsumed after RevertNote(A)
  have hsubB3 : subsumed cfg (revertNote cfg A rm1
      (tuneNote cfg B (tuneNote cfg A w).1).1).1.app B :=
    revertNote_subsumed_mono cfg A rm1 (tuneNote cfg B (tuneNote cfg A w).1).1 B hBA hsubB2
  -- RevertNote(B): last owner leaves, P is restored
  have hlast := revertParams_last_owner cfg B (keysOf nb.params) hndB
    (revertNote cfg A rm1 (tuneNote cfg B (tuneNote cfg A w).1).1).1 P
    ⟨sysRead w.sys P, [B]⟩ hPB hrec3 (by simp) (ownersErase_singleton B) hwP
  refine ⟨⟨vB, hvB, hsys3⟩, hrec3, ?_, ?_, ?_⟩
  · rw [revertNote_sys cfg B rm2 _ nb hsubB3 hB, sysRead, hlast.2]
    rfl
  · rw [revertNote_params cfg B rm2 _ nb hsubB3 hB]
    exact hlast.1
  · intro w3 id rm p r hr he
    by_cases hs : subsumed cfg w3.app id
    · cases hlk : lookupA cfg.notes id with
      | none =>
        unfold revertNote
        simp [hs, hlk]
      | some nd =>
        rw [revertNote_sys cfg id rm w3 nd hs hlk]
        refine revertParams_guard cfg id (keysOf nd.params) w3 p (fun r' hr' _ => ?_)
        rw [hr] at hr'
        cases hr'
        exact he
    · rw [revertNote_sys_unchanged_not_subsumed cfg id rm w3 hs]

/-- A two-note catalog where both notes override parameter P, for the C1
witness. -/
def cfgW2 : Config :=
  ⟨[("A1", ⟨"noteA", [("P", "va")]⟩), ("B1", ⟨"noteB", [("P", "vb")]⟩)], [],
    fun _ => true⟩

/-- A world with an untuned system holding an original value for P. -/
def worldW2 : World := ⟨⟨[], [], []⟩, [("P", "orig")]⟩

/-- Witness for C1: after TuneNote(A1), TuneNote(B1), RevertNote(A1), P
retains B1's value; after RevertNote(B1) it is restored. -/
theorem claim1_witness :
    (∃ vB, lookupA (NoteDef.params ⟨"noteB", [("P", "vb")]⟩) "P" = some vB ∧
      lookupA (revertNote cfgW2 "A1" true
        (tuneNote cfgW2 "B1" (tuneNote cfgW2 "A1" worldW2).1).1).1.sys "P" = some vB) ∧
    (lookupA (revertNote cfgW2 "A1" true
        (tuneNote cfgW2 "B1" (tuneNote cfgW2 "A1" worldW2).1).1).1.app.params "P" =
      some ⟨sysRead worldW2.sys "P", ["B1"]⟩) ∧
    sysRead (revertNote cfgW2 "B1" true (revertNote cfgW2 "A1" true
        (tuneNote cfgW2 "B1" (tuneNote cfgW2 "A1" worldW2).1).1).1).1.sys "P" =
      sysRead worldW2.sys "P" ∧
    lookupA (revertNote cfgW2 "B1" true (revertNote cfgW2 "A1" true
        (tuneNote cfgW2 "B1" (tuneNote cfgW2 "A1" worldW2).1).1).1).1.app.params "P" =
      none ∧
    (∀ (w3 : World) (id : String) (rm : Bool) (p : String) (r : ParamRecord),
      lookupA w3.app.params p = some r → ownersErase id r.owners ≠ [] →
      lookupA (revertNote cfgW2 id rm w3).1.sys p = lookupA w3.sys p) :=
  claim1_shared_ownership cfgW2 "A1" "B1" "P" worldW2
    ⟨"noteA", [("P", "va")]⟩ ⟨"noteB", [("P", "vb")]⟩ true true
    (by decide) (by decide) (by decide) (by decide) (by decide)
    (by decide) (by decide) (by decide) (by decide)

theorem lookupA_eq_of_mem_nodup {α : Type} (m : AssocL α) (hnd : (keysOf m).Nodup)
    (pv : String × α) (h : pv ∈ m) : lookupA m pv.1 = some pv.2 := by
  induction m with
  | nil => simp at h
  | cons e rest ih =>
    have hnd2 : (e.1 :: keysOf rest).Nodup := hnd
    have hh := List.nodup_cons.mp hnd2
    rcases List.mem_cons.mp h with heq | hmem
    · subst heq
      simp [lookupA]
    · have hne : e.1 ≠ pv.1 := by
        intro hc
        exact hh.1 (hc ▸ List.mem_map_of_mem Prod.fst hmem)
      simp [lookupA, hne]
      exact ih hh.2 hmem

theorem applySolutionNotes_activeNotes (cfg : Config) (ids : List String) :
    ∀ w : World, (applySolutionNotes cfg ids w).1.app.activeNotes = w.app.activeNotes := by
  induction ids with
  | nil => intro w; rfl
  | cons id rest ih =>
    intro w
    unfold applySolutionNotes
    cases h : lookupA cfg.notes id
    · rfl
    · rename_i nd
      simp only []
      rw [ih, applyParams_activeNotes]

theorem applySolutionNotes_activeSolutions (cfg : Config) (ids : List String) :
    ∀ w : World,
      (applySolutionNotes cfg ids w).1.app.activeSolutions = w.app.activeSolutions := by
  induction ids with
  | nil => intro w; rfl
  | cons id rest ih =>
    intro w
    unfold applySolutionNotes
    cases h : lookupA cfg.notes id
    · rfl
    · rename_i nd
      simp only []
      rw [ih, applyParams_activeSolutions]

theorem applySolutionNotes_preserve (cfg : Config) (N : String) (ndN : NoteDef)
    (hN : lookupA cfg.notes N = some ndN) (hnodupN : (keysOf ndN.params).Nodup)
    (ids : List String)
    (hdisj : ∀ id ∈ ids, id ≠ N →
      ∀ p ∈ keysOf ndN.params, p ∉ keysOf ((lookupA cfg.notes id).getD ⟨"", []⟩).params) :
    ∀ w : World,
      (∀ pv ∈ ndN.params, ∃ r, lookupA w.app.params pv.1 = some r ∧ N ∈ r.owners ∧
        lookupA w.sys pv.1 = some pv.2) →
      ∀ p ∈ keysOf ndN.params,
        lookupA (applySolutionNotes cfg ids w).1.app.params p = lookupA w.app.params p ∧
        lookupA (applySolutionNotes cfg ids w).1.sys p = lookupA w.sys p := by
  induction ids with
  | nil => intro w _ p _; exact ⟨rfl, rfl⟩
  | cons id rest ih =>
    intro w hinv p hp
    have hdisj2 : ∀ id2 ∈ rest, id2 ≠ N →
        ∀ p2 ∈ keysOf ndN.params,
          p2 ∉ keysOf ((lookupA cfg.notes id2).getD ⟨"", []⟩).params :=
      fun id2 h2 => hdisj id2 (List.mem_cons_of_mem id h2)
    unfold applySolutionNotes
    cases hlk : lookupA cfg.notes id
    · exact ⟨rfl, rfl⟩
    · rename_i nd
      simp only []
      by_cases hidN : id = N
      · subst hidN
        have hee : nd = ndN := by
          rw [hN] at hlk
          exact (Option.some.injEq _ _ ▸ hlk).symm ▸ rfl
        subst hee
        have hnoop : (applyParams cfg id nd.params w).1 = w := by
          refine applyParams_noop cfg id nd.params w (fun pv hpv => ?_)
          obtain ⟨r, hr, ho, hs⟩ := hinv pv hpv
          exact ⟨r, hr, ho, fun _ => hs⟩
        rw [hnoop]
        exact ih hdisj2 w hinv p hp
      · have hfr : ∀ q ∈ keysOf ndN.params,
            lookupA (applyParams cfg id nd.params w).1.app.params q =
              lookupA w.app.params q ∧
            lookupA (applyParams cfg id nd.params w).1.sys q = lookupA w.sys q := by
          intro q hq
          have hqn : q ∉ keysOf nd.params := by
            have := hdisj id (List.mem_cons_self id rest) hidN q hq
            rw [hlk] at this
            exact this
          exact ⟨applyParams_params_not_mem cfg id nd.params q hqn w,
            applyParams_sys_not_mem cfg id nd.params q hqn w⟩
        have hinv2 : ∀ pv ∈ ndN.params, ∃ r,
            lookupA (applyParams cfg id nd.params w).1.app.params pv.1 = some r ∧
            N ∈ r.owners ∧
            lookupA (applyParams cfg id nd.params w).1.sys pv.1 = some pv.2 := by
          intro pv hpv
          obtain ⟨r, hr, ho, hs⟩ := hinv pv hpv
          have hk : pv.1 ∈ keysOf ndN.params := List.mem_map_of_mem Prod.fst hpv
          exact ⟨r, by rw [(hfr pv.1 hk).1]; exact hr, ho, by rw [(hfr pv.1 hk).2]; exact hs⟩
        have step := ih hdisj2 (applyParams cfg id nd.params w).1 hinv2 p hp
        exact ⟨by rw [step.1, (hfr p hp).1], by rw [step.2, (hfr p hp).2]⟩

theorem tuneSolution_removed (cfg : Config) (S : String) (w : World) (ids : List String)
    (hS : lookupA cfg.sols S = some ids) :
    (tuneSolution cfg S w).2.1 =
      w.app.activeNotes.filter (fun x => decide (x ∈ ids)) := by
  simp [tuneSolution, hS]

theorem tuneSolution_activeNotes (cfg : Config) (S : String) (w : World) (ids : List String)
    (hS : lookupA cfg.sols S = some ids) :
    (tuneSolution cfg S w).1.app.activeNotes =
      w.app.activeNotes.filter (fun x => decide (x ∉ ids)) := by
  simp [tuneSolution, hS, applySolutionNotes_activeNotes]

theorem tuneSolution_activeSolutions_mem (cfg : Config) (S : String) (w : World)
    (ids : List String) (hS : lookupA cfg.sols S = some ids) :
    S ∈ (tuneSolution cfg S w).1.app.activeSolutions := by
  simp only [tuneSolution, hS]
  split
  next h => exact h
  next h => simp

theorem tuneSolution_params (cfg : Config) (S : String) (w : World) (ids : List String)
    (hS : lookupA cfg.sols S = some ids) :
    (tuneSolution cfg S w).1.app.params =
      (applySolutionNotes cfg ids
        ⟨⟨w.app.activeNotes.filter (fun x => decide (x ∉ ids)),
          w.app.activeSolutions, w.app.params⟩, w.sys⟩).1.app.params := by
  simp [tuneSolution, hS]

theorem tuneSolution_sys (cfg : Config) (S : String) (w : World) (ids : List String)
    (hS : lookupA cfg.sols S = some ids) :
    (tuneSolution cfg S w).1.sys =
      (applySolutionNotes cfg ids
        ⟨⟨w.app.activeNotes.filter (fun x => decide (x ∉ ids)),
          w.app.activeSolutions, w.app.params⟩, w.sys⟩).1.sys := by
  simp [tuneSolution, hS]

/-- C4: TuneSolution absorbs a standalone-active member Note N: N is
reported in the removed-additional-notes result, removed from
activeNotes, the Solution joins activeSolutions, and N's applied
parameter values and saved-original records are left unchanged (no
second save, no ownership change). -/
theorem claim4_absorption (cfg : Config) (S N : String) (w : World)
    (ids : List String) (ndN : NoteDef)
    (hS : lookupA cfg.sols S = some ids)
    (hNmem : N ∈ ids)
    (hact : N ∈ w.app.activeNotes)
    (hN : lookupA cfg.notes N = some ndN)
    (hnodupN : (keysOf ndN.params).Nodup)
    (hvals : ∀ pv ∈ ndN.params, ∃ r, lookupA w.app.params pv.1 = some r ∧
      N ∈ r.owners ∧ lookupA w.sys pv.1 = some pv.2)
    (hdisj : ∀ id ∈ ids, id ≠ N →
      ∀ p ∈ keysOf ndN.params,
        p ∉ keysOf ((lookupA cfg.notes id).getD ⟨"", []⟩).params) :
    N ∈ (tuneSolution cfg S w).2.1 ∧
    N ∉ (tuneSolution cfg S w).1.app.activeNotes ∧
    S ∈ (tuneSolution cfg S w).1.app.activeSolutions ∧
    (∀ p ∈ keysOf ndN.params,
      lookupA (tuneSolution cfg S w).1.app.params p = lookupA w.app.params p ∧
      lookupA (tuneSolution cfg S w).1.sys p = lookupA w.sys p) := by
  refine ⟨?_, ?_, tuneSolution_activeSolutions_mem cfg S w ids hS, ?_⟩
  · rw [tuneSolution_removed cfg S w ids hS]
    exact List.mem_filter.mpr ⟨hact, by simpa using hNmem⟩
  · rw [tuneSolution_activeNotes cfg S w ids hS]
    intro hc
    have := (List.mem_filter.mp hc).2
    simp at this
    exact this hNmem
  · intro p hp
    have hpres := applySolutionNotes_preserve cfg N ndN hN hnodupN ids hdisj
      ⟨⟨w.app.activeNotes.filter (fun x => decide (x ∉ ids)),
        w.app.activeSolutions, w.app.params⟩, w.sys⟩ hvals p hp
    rw [tuneSolution_params cfg S w ids hS, tuneSolution_sys cfg S w ids hS]
    exact hpres

/-- A catalog with a two-note solution, for the C4 witness. -/
def cfgW3 : Config :=
  ⟨[("N1", ⟨"note one", [("P", "vb")]⟩), ("N2", ⟨"note two", [("Q", "vq")]⟩)],
   [("S1", ["N1", "N2"])], fun _ => true⟩

/-- A world where N1 is standalone-active with its value applied. -/
def worldW3 : World :=
  ⟨⟨["N1"], [], [("P", ⟨"orig", ["N1"]⟩)]⟩, [("P", "vb"), ("Q", "q0")]⟩

/-- Witness for C4: absorbing standalone-active N1 into solution S1. -/
theorem claim4_witness :
    "N1" ∈ (tuneSolution cfgW3 "S1" worldW3).2.1 ∧
    "N1" ∉ (tuneSolution cfgW3 "S1" worldW3).1.app.activeNotes ∧
    "S1" ∈ (tuneSolution cfgW3 "S1" worldW3).1.app.activeSolutions ∧
    (∀ p ∈ keysOf (NoteDef.params ⟨"note one", [("P", "vb")]⟩),
      lookupA (tuneSolution cfgW3 "S1" worldW3).1.app.params p =
        lookupA worldW3.app.params p ∧
      lookupA (tuneSolution cfgW3 "S1" worldW3).1.sys p = lookupA worldW3.sys p) :=
  claim4_absorption cfgW3 "S1" "N1" worldW3 ["N1", "N2"]
    ⟨"note one", [("P", "vb")]⟩ (by decide) (by decide) (by decide) (by decide)
    (by decide)
    (by
      intro pv hpv
      simp at hpv
      subst hpv
      exact ⟨⟨"orig", ["N1"]⟩, by decide, by decide, by decide⟩)
    (by decide)

/-! ## Bulk operation lemmas -/

theorem tuneAllOn_append (cfg : Config) (pre : List String) :
    ∀ (post : List String) (w : World),
      tuneAllOn cfg (pre ++ post) w =
        ((tuneAllOn cfg post (tuneAllOn cfg pre w).1).1,
         (tuneAllOn cfg pre w).2.1 ++ (tuneAllOn cfg post (tuneAllOn cfg pre w).1).2.1,
         (tuneAllOn cfg pre w).2.2 ++ (tuneAllOn cfg post (tuneAllOn cfg pre w).1).2.2) := by
  induction pre with
  | nil => intro post w; simp [tuneAllOn]
  | cons id rest ih =>
    intro post w
    simp only [List.cons_append, tuneAllOn]
    rw [show rest.append post = rest ++ post from rfl, ih post (tuneNote cfg id w).1]
    simp [List.append_assoc]

theorem revertAllOn_append (cfg : Config) (flag : Bool) (pre : List String) :
    ∀ (post : List String) (w : World),
      revertAllOn cfg flag (pre ++ post) w =
        ((revertAllOn cfg flag post (revertAllOn cfg flag pre w).1).1,
         (revertAllOn cfg flag pre w).2.1 ++
           (revertAllOn cfg flag post (revertAllOn cfg flag pre w).1).2.1,
         (revertAllOn cfg flag pre w).2.2 ++
           (revertAllOn cfg flag post (revertAllOn cfg flag pre w).1).2.2) := by
  induction pre with
  | nil => intro post w; simp [revertAllOn]
  | cons id rest ih =>
    intro post w
    simp only [List.cons_append, revertAllOn]
    rw [show rest.append post = rest ++ post from rfl,
      ih post (revertNote cfg id flag w).1]
    simp [List.append_assoc]

theorem applyParam_failures (cfg : Config) (o : String) (w : World) (pv : String × String) :
    (applyParam cfg o w pv).2 = if cfg.writable pv.1 then [] else [⟨o, pv.1⟩] := by
  unfold applyParam
  by_cases hw : cfg.writable pv.1 <;> simp [hw]

theorem applyParams_failures (cfg : Config) (o : String) (ps : AssocL String) :
    ∀ (w : World) (f : Failure),
      f ∈ (applyParams cfg o ps w).2 ↔
        f.noteID = o ∧ f.param ∈ keysOf ps ∧ cfg.writable f.param = false := by
  induction ps with
  | nil => intro w f; simp [applyParams, keysOf]
  | cons pv rest ih =>
    intro w f
    show f ∈ (applyParam cfg o w pv).2 ++ (applyParams cfg o rest (applyParam cfg o w pv).1).2
        ↔ _
    rw [List.mem_append, applyParam_failures, ih]
    constructor
    · intro hc
      rcases hc with h1 | h2
      · by_cases hw : cfg.writable pv.1
        · simp [hw] at h1
        · simp [hw] at h1
          subst h1
          exact ⟨rfl, by simp [keysOf], by simpa using hw⟩
      · exact ⟨h2.1, by simp [keysOf]; right; simpa [keysOf] using h2.2.1, h2.2.2⟩
    · intro hc
      obtain ⟨h1, h2, h3⟩ := hc
      have h2' : f.param = pv.1 ∨ f.param ∈ keysOf rest := by
        simpa [keysOf] using h2
      rcases h2' with he | hm
      · left
        have hw : cfg.writable pv.1 = false := he ▸ h3
        simp [hw]
        cases f
        simp at h1 he
        simp [h1, he]
      · right
        exact ⟨h1, hm, h3⟩

theorem tuneNote_failures (cfg : Config) (id : String) (w : World) (f : Failure) :
    f ∈ (tuneNote cfg id w).2.1 ↔
      ∃ nd, lookupA cfg.notes id = some nd ∧ f.noteID = id ∧
        f.param ∈ keysOf nd.params ∧ cfg.writable f.param = false := by
  cases hlk : lookupA cfg.notes id with
  | none => simp [tuneNote, hlk]
  | some nd =>
    have he : (tuneNote cfg id w).2.1 = (applyParams cfg id nd.params w).2 := by
      unfold tuneNote
      rw [hlk]
      by_cases hs : subsumed cfg (applyParams cfg id nd.params w).1.app id <;> simp [hs]
    rw [he, applyParams_failures]
    simp [hlk]

theorem tuneNote_err (cfg : Config) (id : String) (w : World) (e : TErr) :
    e ∈ (tuneNote cfg id w).2.2.toList ↔
      lookupA cfg.notes id = none ∧ e = TErr.notFound id := by
  cases hlk : lookupA cfg.notes id with
  | none => simp [tuneNote, hlk]
  | some nd =>
    have he : (tuneNote cfg id w).2.2 = none := by
      unfold tuneNote
      rw [hlk]
      by_cases hs : subsumed cfg (applyParams cfg id nd.params w).1.app id <;> simp [hs]
    simp [he, hlk]

theorem tuneAllOn_failures (cfg : Config) (ids : List String) :
    ∀ (w : World) (f : Failure),
      f ∈ (tuneAllOn cfg ids w).2.1 ↔
        f.noteID ∈ ids ∧ ∃ nd, lookupA cfg.notes f.noteID = some nd ∧
          f.param ∈ keysOf nd.params ∧ cfg.writable f.param = false := by
  induction ids with
  | nil => intro w f; simp [tuneAllOn]
  | cons id rest ih =>
    intro w f
    show f ∈ (tuneNote cfg id w).2.1 ++ (tuneAllOn cfg rest (tuneNote cfg id w).1).2.1 ↔ _
    rw [List.mem_append, tuneNote_failures, ih]
    constructor
    · intro hc
      rcases hc with ⟨nd, h1, h2, h3, h4⟩ | ⟨h1, h2⟩
      · exact ⟨by simp [h2], nd, h2 ▸ h1, h3, h4⟩
      · exact ⟨by simp [h1], h2⟩
    · intro hc
      obtain ⟨h1, nd, h2, h3, h4⟩ := hc
      rcases List.mem_cons.mp h1 with he | hm
      · exact Or.inl ⟨nd, he ▸ h2, he, h3, h4⟩
      · exact Or.inr ⟨hm, nd, h2, h3, h4⟩

theorem tuneAllOn_errs (cfg : Config) (ids : List String) :
    ∀ (w : World) (e : TErr),
      e ∈ (tuneAllOn cfg ids w).2.2 ↔
        ∃ id ∈ ids, lookupA cfg.notes id = none ∧ e = TErr.notFound id := by
  induction ids with
  | nil => intro w e; simp [tuneAllOn]
  | cons id rest ih =>
    intro w e
    show e ∈ (tuneNote cfg id w).2.2.toList ++ (tuneAllOn cfg rest (tuneNote cfg id w).1).2.2
        ↔ _
    rw [List.mem_append, tuneNote_err, ih]
    constructor
    · intro hc
      rcases hc with ⟨h1, h2⟩ | ⟨id2, h1, h2⟩
      · exact ⟨id, by simp, h1, h2⟩
      · exact ⟨id2, by simp [h1], h2⟩
    · intro hc
      obtain ⟨id2, h1, h2, h3⟩ := hc
      rcases List.mem_cons.mp h1 with he | hm
      · exact Or.inl ⟨he ▸ h2, he ▸ h3⟩
      · exact Or.inr ⟨id2, hm, h2, h3⟩

/-- C5: TuneAll and RevertAll never abort on a failing Note: processing a
list of Notes composes over concatenation regardless of collected
failures and errors, every write failure of every processed Note appears
in the aggregate failure list (and nothing else does), every
missing-catalog error is likewise collected, and both bulk operations
run over every Note referenced by activeNotes and activeSolutions. -/
theorem claim5_bulk_resilient (cfg : Config) :
    (∀ (pre post : List String) (w : World),
      tuneAllOn cfg (pre ++ post) w =
        ((tuneAllOn cfg post (tuneAllOn cfg pre w).1).1,
         (tuneAllOn cfg pre w).2.1 ++ (tuneAllOn cfg post (tuneAllOn cfg pre w).1).2.1,
         (tuneAllOn cfg pre w).2.2 ++ (tuneAllOn cfg post (tuneAllOn cfg pre w).1).2.2)) ∧
    (∀ (flag : Bool) (pre post : List String) (w : World),
      revertAllOn cfg flag (pre ++ post) w =
        ((revertAllOn cfg flag post (revertAllOn cfg flag pre w).1).1,
         (revertAllOn cfg flag pre w).2.1 ++
           (revertAllOn cfg flag post (revertAllOn cfg flag pre w).1).2.1,
         (revertAllOn cfg flag pre w).2.2 ++
           (revertAllOn cfg flag post (revertAllOn cfg flag pre w).1).2.2)) ∧
    (∀ (ids : List String) (w : World) (f : Failure),
      f ∈ (tuneAllOn cfg ids w).2.1 ↔
        f.noteID ∈ ids ∧ ∃ nd, lookupA cfg.notes f.noteID = some nd ∧
          f.param ∈ keysOf nd.params ∧ cfg.writable f.param = false) ∧
    (∀ (ids : List String) (w : World) (e : TErr),
      e ∈ (tuneAllOn cfg ids w).2.2 ↔
        ∃ id ∈ ids, lookupA cfg.notes id = none ∧ e = TErr.notFound id) ∧
    (∀ w : World, tuneAll cfg w = tuneAllOn cfg (allNoteIDs cfg w.app) w) ∧
    (∀ (flag : Bool) (w : World),
      revertAll cfg flag w = revertAllOn cfg flag (allNoteIDs cfg w.app) w) :=
  ⟨fun pre post w => tuneAllOn_append cfg pre post w,
   fun flag pre post w => revertAllOn_append cfg flag pre post w,
   fun ids w f => tuneAllOn_failures cfg ids w f,
   fun ids w e => tuneAllOn_errs cfg ids w e,
   fun _ => rfl, fun _ _ => rfl⟩

/-! ## Verify lemmas -/

theorem verifyNote_world (cfg : Config) (id : String) (w : World) :
    (verifyNote cfg id w).2 = w := by
  cases hlk : lookupA cfg.notes id <;> simp [verifyNote, hlk]

/-- C9: VerifyNote is read-only and deterministic: it returns the world
unchanged, and a second call on the world returned by the first yields
exactly the same comparison result. -/
theorem claim9_verify_deterministic (cfg : Config) (id : String) (w : World) :
    (verifyNote cfg id (verifyNote cfg id w).2).1 = (verifyNote cfg id w).1 ∧
    (verifyNote cfg id w).2 = w ∧
    (verifyNote cfg id (verifyNote cfg id w).2).2 = w := by
  rw [verifyNote_world cfg id w]
  exact ⟨rfl, rfl, verifyNote_world cfg id w⟩

theorem printNoteFields_mem (cfg : Config) (noteID : String)
    (comparisons : AssocL NoteFieldComparison) (nc : String × NoteFieldComparison)
    (h : nc ∈ comparisons) (hm : nc.2.matchExpectation = false) :
    ("\t" ++ nc.1 ++ " Expected: " ++ nc.2.expectedValueJS) ∈
      printNoteFields cfg noteID comparisons true ∧
    ("\t" ++ nc.1 ++ " Actual  : " ++ nc.2.actualValueJS) ∈
      printNoteFields cfg noteID comparisons true := by
  have hdiff : ∀ s ∈ ["\t" ++ nc.1 ++ " Expected: " ++ nc.2.expectedValueJS,
      "\t" ++ nc.1 ++ " Actual  : " ++ nc.2.actualValueJS],
      s ∈ comparisons.flatMap (fun nc2 =>
        if nc2.2.matchExpectation then []
        else ["\t" ++ nc2.1 ++ " Expected: " ++ nc2.2.expectedValueJS,
              "\t" ++ nc2.1 ++ " Actual  : " ++ nc2.2.actualValueJS]) := by
    intro s hs
    refine List.mem_flatMap.mpr ⟨nc, h, ?_⟩
    simpa [hm] using hs
  constructor
  · refine List.mem_cons_of_mem _ (List.mem_append_left _ ?_)
    exact hdiff _ (by simp)
  · refine List.mem_cons_of_mem _ (List.mem_append_left _ ?_)
    exact hdiff _ (by simp)

theorem flatMapPrint_mem (cfg : Config) (unsat : List String)
    (comps : AssocL (AssocL NoteFieldComparison)) (id : String) (hid : id ∈ unsat)
    (nc : String × NoteFieldComparison) (hnc : nc ∈ (lookupA comps id).getD [])
    (hm : nc.2.matchExpectation = false) :
    ("\t" ++ nc.1 ++ " Expected: " ++ nc.2.expectedValueJS) ∈
      unsat.flatMap (fun i => printNoteFields cfg i ((lookupA comps i).getD []) true) ∧
    ("\t" ++ nc.1 ++ " Actual  : " ++ nc.2.actualValueJS) ∈
      unsat.flatMap (fun i => printNoteFields cfg i ((lookupA comps i).getD []) true) := by
  have hp := printNoteFields_mem cfg id ((lookupA comps id).getD []) nc hnc hm
  exact ⟨List.mem_flatMap.mpr ⟨id, hid, hp.1⟩, List.mem_flatMap.mpr ⟨id, hid, hp.2⟩⟩

/-- C6: every verify invocation (verify-all, a named Note, or a named
Solution) prints, for every non-conforming Note, every non-matching
field's expected and actual values before exiting with failure, and
reports success without failing when nothing deviates; the unsatisfied
set of verify-all is exactly the set of non-conforming active Notes. -/
theorem claim6_verify_reporting (cfg : Config) (w : World) :
    ((verifyAll cfg w).1 = [] →
      verifyAllParameters cfg w =
        ⟨["The running system is currently well-tuned according to all of the enabled notes."],
         0⟩) ∧
    ((verifyAll cfg w).1 ≠ [] →
      (verifyAllParameters cfg w).exitCode = 1 ∧
      ∀ id ∈ (verifyAll cfg w).1, ∀ nc ∈ (lookupA (verifyAll cfg w).2 id).getD [],
        nc.2.matchExpectation = false →
          ("\t" ++ nc.1 ++ " Expected: " ++ nc.2.expectedValueJS) ∈
            (verifyAllParameters cfg w).lines ∧
          ("\t" ++ nc.1 ++ " Actual  : " ++ nc.2.actualValueJS) ∈
            (verifyAllParameters cfg w).lines) ∧
    (∀ id, id ∈ (verifyAll cfg w).1 ↔
      id ∈ (allNoteIDs cfg w.app).dedup ∧ conformsB cfg w id = false) ∧
    (∀ (id : String) (nd : NoteDef), id ≠ "" → lookupA cfg.notes id = some nd →
      ((compareNote w.sys nd).all (fun pc => pc.2.matchExpectation) = true →
        noteVerifyAction cfg id w =
          ⟨["The system fully conforms to the specified note."], 0⟩) ∧
      ((compareNote w.sys nd).all (fun pc => pc.2.matchExpectation) = false →
        (noteVerifyAction cfg id w).exitCode = 1 ∧
        ∀ nc ∈ compareNote w.sys nd, nc.2.matchExpectation = false →
          ("\t" ++ nc.1 ++ " Expected: " ++ nc.2.expectedValueJS) ∈
            (noteVerifyAction cfg id w).lines ∧
          ("\t" ++ nc.1 ++ " Actual  : " ++ nc.2.actualValueJS) ∈
            (noteVerifyAction cfg id w).lines)) ∧
    (∀ (name : String) (ids : List String), name ≠ "" → lookupA cfg.sols name = some ids →
      (ids.filter (fun id => !(conformsB cfg w id)) = [] →
        solutionVerifyAction cfg name w =
          ⟨["The system fully conforms to the tuning guidelines of the specified SAP solution."],
           0⟩) ∧
      (ids.filter (fun id => !(conformsB cfg w id)) ≠ [] →
        (solutionVerifyAction cfg name w).exitCode = 1 ∧
        ∀ id ∈ ids.filter (fun id => !(conformsB cfg w id)),
          ∀ nc ∈ (lookupA (ids.map (fun i => (i, noteComparisons cfg w i))) id).getD [],
            nc.2.matchExpectation = false →
              ("\t" ++ nc.1 ++ " Expected: " ++ nc.2.expectedValueJS) ∈
                (solutionVerifyAction cfg name w).lines ∧
              ("\t" ++ nc.1 ++ " Actual  : " ++ nc.2.actualValueJS) ∈
                (solutionVerifyAction cfg name w).lines)) := by
  refine ⟨?_, ?_, ?_, ?_, ?_⟩
  · intro h
    simp [verifyAllParameters, h]
  · intro h
    constructor
    · simp [verifyAllParameters, h]
    · intro id hid nc hnc hm
      have hml := flatMapPrint_mem cfg (verifyAll cfg w).1 (verifyAll cfg w).2 id hid nc hnc hm
      have hlines : (verifyAllParameters cfg w).lines =
          (verifyAll cfg w).1.flatMap
            (fun i => printNoteFields cfg i ((lookupA (verifyAll cfg w).2 i).getD []) true)
          ++ ["The parameters listed above have deviated from SAP/SUSE recommendations."] := by
        simp [verifyAllParameters, h]
      rw [hlines]
      exact ⟨List.mem_append_left _ hml.1, List.mem_append_left _ hml.2⟩
  · intro id
    simp [verifyAll, List.mem_filter]
  · intro id nd hne hlk
    constructor
    · intro hall
      simp [noteVerifyAction, hne, hlk, hall]
    · intro hall
      have hact : noteVerifyAction cfg id w =
          ⟨printNoteFields cfg id (compareNote w.sys nd) true
            ++ ["The parameters listed above have deviated from the specified note.\n"], 1⟩ := by
        simp [noteVerifyAction, hne, hlk, hall]
      rw [hact]
      refine ⟨rfl, ?_⟩
      intro nc hnc hm
      have hp := printNoteFields_mem cfg id (compareNote w.sys nd) nc hnc hm
      exact ⟨List.mem_append_left _ hp.1, List.mem_append_left _ hp.2⟩
  · intro name ids hne hlk
    constructor
    · intro h0
      simp [solutionVerifyAction, hne, verifySolution, hlk, h0]
    · intro h0
      have hact : solutionVerifyAction cfg name w =
          ⟨(ids.filter (fun id => !(conformsB cfg w id))).flatMap
              (fun i => printNoteFields cfg i
                ((lookupA (ids.map (fun i2 => (i2, noteComparisons cfg w i2))) i).getD [])
                true)
            ++ ["The parameters listed above have deviated from the specified SAP solution recommendations.\n"],
           1⟩ := by
        simp [solutionVerifyAction, hne, verifySolution, hlk, h0]
      rw [hact]
      refine ⟨rfl, ?_⟩
      intro id hid nc hnc hm
      have hml := flatMapPrint_mem cfg (ids.filter (fun id => !(conformsB cfg w id)))
        (ids.map (fun i2 => (i2, noteComparisons cfg w i2))) id hid nc hnc hm
      exact ⟨List.mem_append_left _ hml.1, List.mem_append_left _ hml.2⟩

/-- A world where note 1001 is active but the system deviates. -/
def worldW4 : World := ⟨⟨["1001"], [], []⟩, [("governor", "powersave")]⟩

/-- Witness for C6: a deviating active note makes verify-all print the
expected and actual values of the deviating field and exit 1. -/
theorem claim6_witness :
    (verifyAllParameters cfgW1 worldW4).exitCode = 1 ∧
    ("\t" ++ "governor" ++ " Expected: " ++ "performance") ∈
      (verifyAllParameters cfgW1 worldW4).lines ∧
    ("\t" ++ "governor" ++ " Actual  : " ++ "powersave") ∈
      (verifyAllParameters cfgW1 worldW4).lines := by
  have h := (claim6_verify_reporting cfgW1 worldW4).2.1 (by decide)
  have h2 := h.2 "1001" (by decide)
    ("governor", ⟨"performance", "powersave", false⟩) (by decide) (by decide)
  exact ⟨h.1, h2.1, h2.2⟩

/-- C7: under root with a non-help command, the Solution platform key is
GOARCH suffixed with _PC exactly when the page-cache capability is
available; main errorExits reporting the architecture as unsupported
exactly when no Solution set is registered under that key (returning
before any dispatch or tuning), and dispatches otherwise. -/
theorem claim7_platform_key (args : List String) (euid : Nat) (pc : Bool)
    (goarch : String) (allSolutions : AssocL (AssocL (List String)))
    (h0 : euid = 0) (h1 : cliArg args 1 ≠ "") (h2 : cliArg args 1 ≠ "help")
    (h3 : cliArg args 1 ≠ "--help") :
    (lookupA allSolutions (if pc then goarch ++ "_PC" else goarch) = none ↔
      mainModel args euid pc goarch allSolutions =
        .errExit ("The system architecture (" ++ goarch ++ ") is not supported.")) ∧
    (∀ s, lookupA allSolutions (if pc then goarch ++ "_PC" else goarch) = some s →
      mainModel args euid pc goarch allSolutions =
        (if cliArg args 1 = "daemon" ∨ cliArg args 1 = "note" ∨ cliArg args 1 = "solution"
         then MainResult.dispatched (if pc then goarch ++ "_PC" else goarch) (cliArg args 1)
         else MainResult.helpExit 1)) := by
  have harg : ¬(cliArg args 1 = "" ∨ cliArg args 1 = "help" ∨ cliArg args 1 = "--help") := by
    simp [h1, h2, h3]
  have hm : mainModel args euid pc goarch allSolutions =
      (match lookupA allSolutions (if pc then goarch ++ "_PC" else goarch) with
       | none => .errExit ("The system architecture (" ++ goarch ++ ") is not supported.")
       | some _ =>
         if cliArg args 1 = "daemon" ∨ cliArg args 1 = "note" ∨ cliArg args 1 = "solution"
         then MainResult.dispatched (if pc then goarch ++ "_PC" else goarch) (cliArg args 1)
         else MainResult.helpExit 1) := by
    unfold mainModel
    rw [if_neg harg, if_neg (by simp [h0])]
  constructor
  · cases hlk : lookupA allSolutions (if pc then goarch ++ "_PC" else goarch) with
    | none => simp [hm, hlk]
    | some s =>
      simp only [hm, hlk]
      constructor
      · intro hc; exact absurd hc (by simp)
      · intro hc
        by_cases hd : cliArg args 1 = "daemon" ∨ cliArg args 1 = "note" ∨
            cliArg args 1 = "solution" <;> simp [hd] at hc
  · intro s hs
    rw [hm, hs]

/-- C10: with a present first argument that is neither help nor --help and
a non-root effective uid, main prints the root-privilege error and exits 1
without reaching catalog loading or dispatch; and without root the only
reachable outcomes at all are the help exit and that error exit. -/
theorem claim10_root_gate (args : List String) (euid : Nat) (pc : Bool)
    (goarch : String) (allSolutions : AssocL (AssocL (List String)))
    (h1 : cliArg args 1 ≠ "") (h2 : cliArg args 1 ≠ "help")
    (h3 : cliArg args 1 ≠ "--help") (h4 : euid ≠ 0) :
    mainModel args euid pc goarch allSolutions =
      .errExit "Please run saptune with root privilege." ∧
    (∀ args2 : List String,
      mainModel args2 euid pc goarch allSolutions = .helpExit 0 ∨
      mainModel args2 euid pc goarch allSolutions =
        .errExit "Please run saptune with root privilege.") := by
  constructor
  · have harg : ¬(cliArg args 1 = "" ∨ cliArg args 1 = "help" ∨ cliArg args 1 = "--help") := by
      simp [h1, h2, h3]
    unfold mainModel
    rw [if_neg harg, if_pos h4]
  · intro args2
    by_cases harg2 : cliArg args2 1 = "" ∨ cliArg args2 1 = "help" ∨ cliArg args2 1 = "--help"
    · left
      unfold mainModel
      rw [if_pos harg2]
    · right
      unfold mainModel
      rw [if_neg harg2, if_pos h4]

/-- Witness for C7: a supported and an unsupported architecture lookup. -/
theorem claim7_witness :
    mainModel ["saptune", "note"] 0 true "amd64" [("amd64_PC", [("S1", ["N1"])])] =
      MainResult.dispatched "amd64_PC" "note" ∧
    mainModel ["saptune", "note"] 0 false "amd64" [("amd64_PC", [("S1", ["N1"])])] =
      MainResult.errExit ("The system architecture (" ++ "amd64" ++ ") is not supported.") := by
  constructor
  · have h := (claim7_platform_key ["saptune", "note"] 0 true "amd64"
      [("amd64_PC", [("S1", ["N1"])])] (by decide) (by decide) (by decide) (by decide)).2
      [("S1", ["N1"])] (by decide)
    rw [h]
    decide
  · have h := (claim7_platform_key ["saptune", "note"] 0 false "amd64"
      [("amd64_PC", [("S1", ["N1"])])] (by decide) (by decide) (by decide) (by decide)).1
    exact h.mp (by decide)

/-- Witness for C10: a non-root invocation of a tuning command error-exits. -/
theorem claim10_witness :
    mainModel ["saptune", "note", "apply", "1001"] 1000 false "amd64"
        [("amd64", [("S1", ["N1"])])] =
      MainResult.errExit "Please run saptune with root privilege." :=
  (claim10_root_gate ["saptune", "note", "apply", "1001"] 1000 false "amd64"
    [("amd64", [("S1", ["N1"])])] (by decide) (by decide) (by decide) (by decide)).1

/-! ## Binary search (sort.SearchStrings) correctness -/

theorem searchLoop_spec (f : Nat → Bool) (n : Nat)
    (hmono : ∀ k h, k ≤ h → h < n → f h = false → f k = false) :
    ∀ fuel i j : Nat, j - i ≤ fuel → i ≤ j → j ≤ n →
      (∀ k, k < i → f k = false) →
      i ≤ searchLoop f fuel i j ∧ searchLoop f fuel i j ≤ j ∧
      (∀ k, k < searchLoop f fuel i j → f k = false) ∧
      (searchLoop f fuel i j < j → f (searchLoop f fuel i j) = true) := by
  intro fuel
  induction fuel with
  | zero =>
    intro i j hf hij hjn hlow
    refine ⟨Nat.le_refl i, hij, hlow, ?_⟩
    intro hc
    have hc2 : i < j := hc
    exact absurd hc2 (by omega)
  | succ fuel ih =>
    intro i j hf hij hjn hlow
    by_cases hij2 : i < j
    · have hhi : i ≤ (i + j) / 2 := by omega
      have hhj : (i + j) / 2 < j := by omega
      by_cases hfh : f ((i + j) / 2)
      · have hstep : searchLoop f (fuel + 1) i j = searchLoop f fuel i ((i + j) / 2) := by
          simp [searchLoop, hij2, hfh]
        rw [hstep]
        have hr := ih i ((i + j) / 2) (by omega) hhi (by omega) hlow
        refine ⟨hr.1, by omega, hr.2.2.1, ?_⟩
        intro _
        rcases Nat.lt_or_ge (searchLoop f fuel i ((i + j) / 2)) ((i + j) / 2) with h1 | h1
        · exact hr.2.2.2 h1
        · have he : searchLoop f fuel i ((i + j) / 2) = (i + j) / 2 := by omega
          rw [he]
          exact hfh
      · have hfh2 : f ((i + j) / 2) = false := by
          cases hb : f ((i + j) / 2)
          · rfl
          · exact absurd hb hfh
        have hstep : searchLoop f (fuel + 1) i j = searchLoop f fuel ((i + j) / 2 + 1) j := by
          simp [searchLoop, hij2, hfh2]
        rw [hstep]
        have hlow2 : ∀ k, k < (i + j) / 2 + 1 → f k = false := by
          intro k hk
          exact hmono k ((i + j) / 2) (by omega) (by omega) hfh2
        have hr := ih ((i + j) / 2 + 1) j (by omega) (by omega) hjn hlow2
        exact ⟨by omega, hr.2.1, hr.2.2.1, hr.2.2.2⟩
    · have hstep : searchLoop f (fuel + 1) i j = i := by
        simp [searchLoop, hij2]
      rw [hstep]
      exact ⟨Nat.le_refl i, hij, hlow, fun hc => absurd hc (by omega)⟩

theorem sorted_getD_le (a : List String) (hs : a.Sorted (· ≤ ·)) (k h : Nat)
    (hkh : k ≤ h) (hh : h < a.length) : a.getD k "" ≤ a.getD h "" := by
  rcases Nat.eq_or_lt_of_le hkh with he | hlt
  · subst he
    exact le_refl _
  · have hk : k < a.length := Nat.lt_trans hlt hh
    rw [List.getD_eq_getElem a "" hk, List.getD_eq_getElem a "" hh]
    have hrel := List.Sorted.rel_get_of_lt hs
      (a := ⟨k, hk⟩) (b := ⟨h, hh⟩) (Fin.lt_def.mpr hlt)
    simpa [List.get_eq_getElem] using hrel

theorem searchStrings_spec (a : List String) (x : String) (hs : a.Sorted (· ≤ ·)) :
    (∀ k, k < searchStrings a x → ¬ (x ≤ a.getD k "")) ∧
    searchStrings a x ≤ a.length ∧
    (searchStrings a x < a.length → x ≤ a.getD (searchStrings a x) "") := by
  have hmono : ∀ k h, k ≤ h → h < a.length →
      (decide (x ≤ a.getD h "") = false) → (decide (x ≤ a.getD k "") = false) := by
    intro k h hkh hh hd
    simp only [decide_eq_false_iff_not] at hd ⊢
    intro hxk
    exact hd (le_trans hxk (sorted_getD_le a hs k h hkh hh))
  have hr := searchLoop_spec (fun i => decide (x ≤ a.getD i "")) a.length hmono
    a.length 0 a.length (by omega) (Nat.zero_le _) (Nat.le_refl _)
    (fun k hk => absurd hk (Nat.not_lt_zero k))
  refine ⟨?_, hr.2.1, ?_⟩
  · intro k hk
    have hk2 : k < searchLoop (fun i => decide (x ≤ a.getD i "")) a.length 0 a.length := hk
    have h3 := hr.2.2.1 k hk2
    simpa using h3
  · intro hlt
    have hlt2 : searchLoop (fun i => decide (x ≤ a.getD i "")) a.length 0 a.length
        < a.length := hlt
    have h3 := hr.2.2.2 hlt2
    have h4 : decide (x ≤ a.getD (searchStrings a x) "") = true := h3
    simpa using h4

theorem searchStrings_mem (a : List String) (x : String) (hs : a.Sorted (· ≤ ·)) :
    (searchStrings a x < a.length ∧ a.getD (searchStrings a x) "" = x) ↔ x ∈ a := by
  obtain ⟨hlow, hle, hhit⟩ := searchStrings_spec a x hs
  constructor
  · intro hc
    rw [← hc.2, List.getD_eq_getElem a "" hc.1]
    exact List.getElem_mem hc.1
  · intro hx
    obtain ⟨m, hm⟩ := List.mem_iff_get.mp hx
    have hrm : searchStrings a x ≤ m.1 := by
      by_contra hc
      push_neg at hc
      refine hlow m.1 hc ?_
      rw [List.getD_eq_getElem a "" m.2, ← List.get_eq_getElem, hm]
    have h1 : searchStrings a x < a.length := Nat.lt_of_le_of_lt hrm m.2
    have hxr : x ≤ a.getD (searchStrings a x) "" := hhit h1
    have hrx : a.getD (searchStrings a x) "" ≤ x := by
      have := sorted_getD_le a hs (searchStrings a x) m.1 hrm m.2
      rw [List.getD_eq_getElem a "" m.2, ← List.get_eq_getElem, hm] at this
      exact this
    exact ⟨h1, le_antisymm hrx hxr⟩

theorem noteListMarker_eq (sn tfn : List String) (hs1 : sn.Sorted (· ≤ ·))
    (hs2 : tfn.Sorted (· ≤ ·)) (id : String) :
    noteListMarker sn tfn id =
      if id ∈ sn then "*" else if id ∈ tfn then "+" else "" := by
  unfold noteListMarker
  by_cases h1 : id ∈ sn
  · rw [if_pos ((searchStrings_mem sn id hs1).mpr h1), if_pos h1]
  · rw [if_neg (fun hc => h1 ((searchStrings_mem sn id hs1).mp hc)), if_neg h1]
    by_cases h2 : id ∈ tfn
    · rw [if_pos ((searchStrings_mem tfn id hs2).mpr h2), if_pos h2]
    · rw [if_neg (fun hc => h2 ((searchStrings_mem tfn id hs2).mp hc)), if_neg h2]

theorem getSortedSolutionEnabledNotes_sorted (cfg : Config) (app : AppState) :
    (getSortedSolutionEnabledNotes cfg app).Sorted (· ≤ ·) :=
  List.sorted_insertionSort (· ≤ ·) _

theorem getSortedSolutionEnabledNotes_mem (cfg : Config) (app : AppState) (id : String) :
    id ∈ getSortedSolutionEnabledNotes cfg app ↔
      id ∈ solutionNotes cfg app.activeSolutions := by
  unfold getSortedSolutionEnabledNotes
  rw [List.Perm.mem_iff (List.perm_insertionSort (· ≤ ·) _)]
  exact List.mem_dedup

/-- C8: in the note list output, an id carries the marker given by the
binary-search membership tests of main.go, and for sorted inputs that
marker is a star exactly when the id is reachable from an active Solution
(the set GetSortedSolutionEnabledNotes returns), otherwise a plus exactly
when it is in the manually enabled note list; every catalog id except the
internal note Block yields exactly its marked entry. -/
theorem claim8_note_list_marking (cfg : Config) (app : AppState)
    (sortedIDs tfn : List String) (hs2 : tfn.Sorted (· ≤ ·)) :
    (∀ id, noteListMarker (getSortedSolutionEnabledNotes cfg app) tfn id =
      if id ∈ solutionNotes cfg app.activeSolutions then "*"
      else if id ∈ tfn then "+" else "") ∧
    (∀ id ∈ sortedIDs, id ≠ "Block" →
      (noteListMarker (getSortedSolutionEnabledNotes cfg app) tfn id, id) ∈
        noteListEntries sortedIDs (getSortedSolutionEnabledNotes cfg app) tfn) ∧
    (∀ m id, (m, id) ∈ noteListEntries sortedIDs (getSortedSolutionEnabledNotes cfg app) tfn →
      id ∈ sortedIDs ∧ id ≠ "Block" ∧
      m = noteListMarker (getSortedSolutionEnabledNotes cfg app) tfn id) := by
  refine ⟨?_, ?_, ?_⟩
  · intro id
    rw [noteListMarker_eq (getSortedSolutionEnabledNotes cfg app) tfn
      (getSortedSolutionEnabledNotes_sorted cfg app) hs2 id]
    by_cases h1 : id ∈ solutionNotes cfg app.activeSolutions
    · rw [if_pos ((getSortedSolutionEnabledNotes_mem cfg app id).mpr h1), if_pos h1]
    · rw [if_neg (fun hc => h1 ((getSortedSolutionEnabledNotes_mem cfg app id).mp hc)),
        if_neg h1]
  · intro id hid hne
    refine List.mem_filterMap.mpr ⟨id, hid, ?_⟩
    rw [if_neg hne]
  · intro m id hmem
    obtain ⟨a, ha, hf⟩ := List.mem_filterMap.mp hmem
    by_cases hb : a = "Block"
    · rw [if_pos hb] at hf
      exact absurd hf (by simp)
    · rw [if_neg hb] at hf
      have h2 := Option.some.inj hf
      have hai : a = id := congrArg Prod.snd h2
      have hm : m = noteListMarker (getSortedSolutionEnabledNotes cfg app) tfn a :=
        (congrArg Prod.fst h2).symm
      subst hai
      exact ⟨ha, hb, hm⟩

/-- An app state with solution S1 active, for the C8 witness. -/
def appW5 : AppState := ⟨[], ["S1"], []⟩

/-- Witness for C8: the marker of solution-enabled N1 and manually
enabled N3 match the membership characterisation, and N1 yields its entry
in the note list. -/
theorem claim8_witness :
    noteListMarker (getSortedSolutionEnabledNotes cfgW3 appW5) ["N3"] "N1" =
      (if "N1" ∈ solutionNotes cfgW3 appW5.activeSolutions then "*"
       else if "N1" ∈ ["N3"] then "+" else "") ∧
    noteListMarker (getSortedSolutionEnabledNotes cfgW3 appW5) ["N3"] "N3" =
      (if "N3" ∈ solutionNotes cfgW3 appW5.activeSolutions then "*"
       else if "N3" ∈ ["N3"] then "+" else "") ∧
    (noteListMarker (getSortedSolutionEnabledNotes cfgW3 appW5) ["N3"] "N1", "N1") ∈
      noteListEntries ["N1", "N2", "N3"]
        (getSortedSolutionEnabledNotes cfgW3 appW5) ["N3"] := by
  have h := claim8_note_list_marking cfgW3 appW5 ["N1", "N2", "N3"] ["N3"] (by simp)
  exact ⟨h.1 "N1", h.1 "N3", h.2.1 "N1" (by simp) (by decide)⟩
